import Mathlib

/-!
# Verification of the pricectl reconciliation engine

A shallow embedding, in Lean 4, of the core of the `pricectl` repository:
the JS value model used by property bags, the search-query escaping of
`packages/cli/src/engine/stripe-utils.ts`, the canonicalizing property
hash and the state store of `packages/cli/src/engine/state.ts`, the
`Coupon` construct of `packages/constructs/src/coupon.ts`, the construct
tree of `packages/core/src/construct.ts`, and the `StripeDeployer` of
`packages/cli/src/engine/deployer.ts` (the state-manager-aware version).

JavaScript objects are modelled by the `Json` type below; `undefined` is
modelled by `Option.none` at the places where a value may be absent.
The Stripe SDK and the crypto library are external collaborators and are
modelled as an explicit environment (`SEnv`) respectively as an abstract
digest function.
-/

/-- JSON-like values: the runtime shape of property bags, manifests,
state files and remote objects.  Numbers are modelled as integers
(the bags carry integer amounts); `undefined` is not a value of this
type — absence is modelled with `Option` where it can occur. -/
inductive Json where
  | null : Json
  | bool : Bool → Json
  | num : Int → Json
  | str : String → Json
  | arr : List Json → Json
  | obj : List (String × Json) → Json
deriving Repr, BEq

namespace Json

/-- First-match lookup in an object's field list (JS objects never hold
duplicate keys, so first-match agrees with JS property lookup). -/
def lookupField : List (String × Json) → String → Option Json
  | [], _ => none
  | (k', v) :: fs, k => if k' = k then some v else lookupField fs k

/-- JS property read `j[k]`: a field of an object, `undefined` (`none`)
on a missing field or on a non-object (string/array index reads by a
non-numeric key also give `undefined`). -/
def jsGet : Json → String → Option Json
  | .obj fs, k => lookupField fs k
  | _, _ => none

/-- Replace the value under a key in place, keeping its slot, or append
the key at the end — JS assignment/spread semantics on object literals. -/
def setField : List (String × Json) → String → Json → List (String × Json)
  | [], k, v => [(k, v)]
  | (k', v') :: fs, k, v =>
    if k' = k then (k, v) :: fs else (k', v') :: setField fs k v

/-- `delete obj[k]` on a field list. -/
def delField : List (String × Json) → String → List (String × Json)
  | [], _ => []
  | (k', v') :: fs, k => if k' = k then fs else (k', v') :: delField fs k

/-- JS assignment `j[k] = v` on an object; identity on non-objects. -/
def jsSet (j : Json) (k : String) (v : Json) : Json :=
  match j with
  | .obj fs => .obj (setField fs k v)
  | other => other

/-- JS truthiness of a value. -/
def jsTruthy : Json → Bool
  | .null => false
  | .bool b => b
  | .num n => n != 0
  | .str s => s != ""
  | .arr _ => true
  | .obj _ => true

/-- JS truthiness of a possibly-`undefined` value. -/
def jsTruthyO : Option Json → Bool
  | none => false
  | some j => jsTruthy j

/-- JS strict equality `===` on primitive values.  Two objects (or two
arrays) compare by reference in JS; in this code base the two sides of
every `===`/`!==` come from distinct provenances (a remote API response
versus a locally built bag), so object/object comparison is modelled as
`false`. -/
def jsPrimEq : Json → Json → Bool
  | .null, .null => true
  | .bool a, .bool b => a == b
  | .num a, .num b => a == b
  | .str a, .str b => a == b
  | _, _ => false

/-- JS strict equality where either side may be `undefined` (`none`). -/
def jsStrictEq : Option Json → Option Json → Bool
  | none, none => true
  | some a, some b => jsPrimEq a b
  | _, _ => false

/-- JS `x ?? undefined`: collapse `null` into `undefined`. -/
def nullToUndef : Option Json → Option Json
  | some .null => none
  | o => o

/-- JS optional chaining `o?.k`: `undefined` on `null`/`undefined`,
otherwise a property read. -/
def optChainGet (o : Option Json) (k : String) : Option Json :=
  match o with
  | none => none
  | some .null => none
  | some j => jsGet j k

/-- JS `x.length` as a value: defined for arrays and strings,
`undefined` otherwise. -/
def jsLen : Json → Option Json
  | .arr xs => some (.num xs.length)
  | .str s => some (.num s.length)
  | _ => none

/-- JS numeric index read `a[i]` on an array value. -/
def jsIndex : Json → Nat → Option Json
  | .arr xs, i => xs.get? i
  | _, _ => none

end Json

/-! ## `escapeSearchQuery` (packages/cli/src/engine/stripe-utils.ts)

```ts
export function escapeSearchQuery(id: string): string {
  return id.replace(/\\/g, '\\\\').replace(/"/g, '\\"');
}
```
Two global replacement passes over the string: every backslash becomes
two backslashes, then every double quote becomes backslash-quote. -/

/-- First pass: `id.replace(/\\/g, '\\\\')`. -/
def escBackslashPass (cs : List Char) : List Char :=
  cs.flatMap fun c => if c = '\\' then ['\\', '\\'] else [c]

/-- Second pass: `.replace(/"/g, '\\"')`. -/
def escQuotePass (cs : List Char) : List Char :=
  cs.flatMap fun c => if c = '"' then ['\\', '"'] else [c]

/-- `escapeSearchQuery` from stripe-utils.ts. -/
def escapeSearchQuery (id : String) : String :=
  ⟨escQuotePass (escBackslashPass id.data)⟩

/-- The reverse rewriting of the query-construction rule: a left-to-right
scan replacing the pair backslash-quote by a quote and the pair
backslash-backslash by a backslash. -/
def unescapeSearchChars : List Char → List Char
  | [] => []
  | [c] => [c]
  | c₁ :: c₂ :: rest =>
    if c₁ = '\\' ∧ (c₂ = '"' ∨ c₂ = '\\') then c₂ :: unescapeSearchChars rest
    else c₁ :: unescapeSearchChars (c₂ :: rest)

/-- The reverse rewriting on strings. -/
def unescapeSearchQuery (s : String) : String :=
  ⟨unescapeSearchChars s.data⟩

/-- Sort a field list by key (insertion sort).  `Object.keys(obj).sort()`
sorts the keys lexicographically; since the sort only inspects keys,
sorting before or after recursing on the values gives the same result. -/
def insertField (p : String × Json) : List (String × Json) → List (String × Json)
  | [] => [p]
  | q :: qs => if p.1 ≤ q.1 then p :: q :: qs else q :: insertField p qs

def sortFields : List (String × Json) → List (String × Json)
  | [] => []
  | p :: ps => insertField p (sortFields ps)

mutual
/-- `StateManager.canonicalizeProperties`: recursively sort all object
keys; arrays keep element order; primitives pass through. -/
def canonicalizeProperties : Json → Json
  | .null => .null
  | .bool b => .bool b
  | .num n => .num n
  | .str s => .str s
  | .arr xs => .arr (canonList xs)
  | .obj fs => .obj (sortFields (canonFields fs))
def canonList : List Json → List Json
  | [] => []
  | x :: xs => canonicalizeProperties x :: canonList xs
def canonFields : List (String × Json) → List (String × Json)
  | [] => []
  | (k, v) :: fs => (k, canonicalizeProperties v) :: canonFields fs
end

/-- No duplicate keys in a list of keys — the invariant JS object
field lists always satisfy. -/
def keysNodupB : List String → Bool
  | [] => true
  | k :: ks => !ks.contains k && keysNodupB ks

mutual
/-- Well-formedness of a JS-originated value: no object anywhere holds
two fields with the same key. -/
def wfJson : Json → Bool
  | .null => true
  | .bool _ => true
  | .num _ => true
  | .str _ => true
  | .arr xs => wfList xs
  | .obj fs => keysNodupB (fs.map Prod.fst) && wfFields fs
def wfList : List Json → Bool
  | [] => true
  | x :: xs => wfJson x && wfList xs
def wfFields : List (String × Json) → Bool
  | [] => true
  | (_, v) :: fs => wfJson v && wfFields fs
end

/-- `y` is obtained from `x` by reordering object keys (at any nesting
depth); arrays keep element order. -/
inductive KeyReorder : Json → Json → Prop where
  | null : KeyReorder .null .null
  | bool (b : Bool) : KeyReorder (.bool b) (.bool b)
  | num (n : Int) : KeyReorder (.num n) (.num n)
  | str (s : String) : KeyReorder (.str s) (.str s)
  | arr (xs ys : List Json) : xs.length = ys.length →
      (∀ p ∈ xs.zip ys, KeyReorder p.1 p.2) →
      KeyReorder (.arr xs) (.arr ys)
  | obj (fs gs hs : List (String × Json)) : fs.length = gs.length →
      (∀ p ∈ fs.zip gs, p.1.1 = p.2.1) →
      (∀ p ∈ fs.zip gs, KeyReorder p.1.2 p.2.2) →
      gs.Perm hs →
      KeyReorder (.obj fs) (.obj hs)

/-- Ordering of fields by key, non-strict. -/
def keyLE (a b : String × Json) : Prop := a.1 ≤ b.1

/-- Escape one character inside a JSON string literal (`"` and `\`). -/
def escJsonChar (c : Char) : List Char :=
  if c = '"' ∨ c = '\\' then ['\\', c] else [c]

def escJsonStr (cs : List Char) : List Char := cs.flatMap escJsonChar

/-- Render a string literal with quotes. -/
def renderStrL (s : String) : List Char := '"' :: (escJsonStr s.data ++ ['"'])

def digitChar (n : Nat) : Char := Char.ofNat (48 + n)

def natCharsAux (n : Nat) (acc : List Char) : List Char :=
  if n < 10 then digitChar n :: acc
  else natCharsAux (n / 10) (digitChar (n % 10) :: acc)
  decreasing_by exact Nat.div_lt_self (by omega) (by omega)

/-- Decimal rendering of an integer. -/
def intChars (n : Int) : List Char :=
  if n < 0 then '-' :: natCharsAux n.natAbs [] else natCharsAux n.toNat []

mutual
/-- `JSON.stringify`, compact form, as a character list. -/
def renderJson : Json → List Char
  | .null => ['n', 'u', 'l', 'l']
  | .bool false => ['f', 'a', 'l', 's', 'e']
  | .bool true => ['t', 'r', 'u', 'e']
  | .num n => intChars n
  | .str s => renderStrL s
  | .arr xs => '[' :: (renderElems xs ++ [']'])
  | .obj fs => '{' :: (renderMembers fs ++ ['}'])
def renderElems : List Json → List Char
  | [] => []
  | [x] => renderJson x
  | x :: y :: xs => renderJson x ++ ',' :: renderElems (y :: xs)
def renderMembers : List (String × Json) → List Char
  | [] => []
  | [(k, v)] => renderStrL k ++ ':' :: renderJson v
  | (k, v) :: q :: fs => renderStrL k ++ ':' :: renderJson v ++ ',' :: renderMembers (q :: fs)
end

/-- `JSON.stringify` on the model. -/
def jsonStringify (j : Json) : String := ⟨renderJson j⟩

/-- `computePropertiesHash` - the sha256-hex step is the abstract
`digest` function (external crypto library); `.slice(0, 16)` is the
16-character truncation. -/
def computePropertiesHash (digest : String → String) (properties : Json) : String :=
  (digest (jsonStringify (canonicalizeProperties properties))).take 16

/-! ### A parser for the rendered form, to prove the serialization
injective.  The parser is a specification artifact (it does not come
from the source); determinism of parsing gives injectivity of
`renderJson`. -/

def isDigitCh (c : Char) : Bool := ('0' ≤ c && c ≤ '9')

def takeDigits : List Char → List Char × List Char
  | [] => ([], [])
  | c :: cs =>
    if isDigitCh c then
      let (ds, r) := takeDigits cs
      (c :: ds, r)
    else ([], c :: cs)

def digitsVal (ds : List Char) : Nat :=
  ds.foldl (fun a c => a * 10 + (c.toNat - 48)) 0

def parseNatL (cs : List Char) : Option (Nat × List Char) :=
  let (ds, r) := takeDigits cs
  if ds.isEmpty then none else some (digitsVal ds, r)

def parseStrAux (acc : List Char) : List Char → Option (String × List Char)
  | '\\' :: c₂ :: r₂ => parseStrAux (c₂ :: acc) r₂
  | '"' :: r => some (⟨acc.reverse⟩, r)
  | c :: r => parseStrAux (c :: acc) r
  | [] => none

def parseNullTail : List Char → Option (Json × List Char)
  | 'u' :: 'l' :: 'l' :: r => some (.null, r)
  | _ => none

def parseTrueTail : List Char → Option (Json × List Char)
  | 'r' :: 'u' :: 'e' :: r => some (.bool true, r)
  | _ => none

def parseFalseTail : List Char → Option (Json × List Char)
  | 'a' :: 'l' :: 's' :: 'e' :: r => some (.bool false, r)
  | _ => none

mutual
def parseVal : Nat → List Char → Option (Json × List Char)
  | 0, _ => none
  | _ + 1, [] => none
  | fuel + 1, c :: r =>
    if c = 'n' then parseNullTail r
    else if c = 't' then parseTrueTail r
    else if c = 'f' then parseFalseTail r
    else if c = '"' then
      match parseStrAux [] r with
      | some (s, r') => some (.str s, r')
      | none => none
    else if c = '[' then parseElemsTop fuel r
    else if c = '{' then parseMembersTop fuel r
    else if c = '-' then
      match parseNatL r with
      | some (m, r') => some (.num (-(m : Int)), r')
      | none => none
    else if isDigitCh c then
      match parseNatL (c :: r) with
      | some (m, r') => some (.num (m : Int), r')
      | none => none
    else none
def parseElemsTop (fuel : Nat) : List Char → Option (Json × List Char)
  | ']' :: r => some (.arr [], r)
  | cs =>
    match parseElemsP fuel cs with
    | some (xs, r') => some (.arr xs, r')
    | none => none
def parseMembersTop (fuel : Nat) : List Char → Option (Json × List Char)
  | '}' :: r => some (.obj [], r)
  | cs =>
    match parseMembersP fuel cs with
    | some (fs, r') => some (.obj fs, r')
    | none => none
def parseElemsP : Nat → List Char → Option (List Json × List Char)
  | 0, _ => none
  | fuel + 1, cs =>
    match parseVal fuel cs with
    | none => none
    | some (v, r) =>
      match r with
      | ',' :: r' =>
        match parseElemsP fuel r' with
        | some (vs, r'') => some (v :: vs, r'')
        | none => none
      | ']' :: r' => some ([v], r')
      | _ => none
def parseMembersP : Nat → List Char → Option (List (String × Json) × List Char)
  | 0, _ => none
  | fuel + 1, cs =>
    match cs with
    | '"' :: r =>
      match parseStrAux [] r with
      | none => none
      | some (k, r₁) =>
        match r₁ with
        | ':' :: r₂ =>
          match parseVal fuel r₂ with
          | none => none
          | some (v, r₃) =>
            match r₃ with
            | ',' :: r₄ =>
              match parseMembersP fuel r₄ with
              | some (fs, r₅) => some ((k, v) :: fs, r₅)
              | none => none
            | '}' :: r₄ => some ([(k, v)], r₄)
            | _ => none
        | _ => none
    | _ => none
end

mutual
/-- Node count, the fuel bound for the parser. -/
def jsize : Json → Nat
  | .null => 1
  | .bool _ => 1
  | .num _ => 1
  | .str _ => 1
  | .arr xs => jsizeL xs + 1
  | .obj fs => jsizeF fs + 1
def jsizeL : List Json → Nat
  | [] => 1
  | x :: xs => jsize x + jsizeL xs + 1
def jsizeF : List (String × Json) → Nat
  | [] => 1
  | (_, v) :: fs => jsize v + jsizeF fs + 1
end

/-! ### Round-trip lemmas: the parser recovers every rendered value -/

/-- The continuation after a rendered number never starts with a digit
(it is `,`, `]`, `}` or the end of input). -/
def headNotDigit : List Char → Bool
  | [] => true
  | c :: _ => !isDigitCh c

/-- A primitive (non-array, non-object) value. -/
def isPrim : Json → Bool
  | .arr _ => false
  | .obj _ => false
  | _ => true

/-- `x` and `y` have the same structure (same constructors, same array
lengths, same keys in the same positions); they may differ in leaf
values. -/
inductive SameShape : Json → Json → Prop where
  | prim (x y : Json) : isPrim x = true → isPrim y = true → SameShape x y
  | arr (xs ys : List Json) : xs.length = ys.length →
      (∀ p ∈ xs.zip ys, SameShape p.1 p.2) → SameShape (.arr xs) (.arr ys)
  | obj (fs gs : List (String × Json)) : fs.length = gs.length →
      (∀ p ∈ fs.zip gs, p.1.1 = p.2.1) →
      (∀ p ∈ fs.zip gs, SameShape p.1.2 p.2.2) → SameShape (.obj fs) (.obj gs)

def STATE_VERSION : Int := 1

/-- `createEmpty()`: the fresh state. -/
def emptyStateJ : Json := .obj [("version", .num STATE_VERSION), ("stacks", .obj [])]

/-- Outcome of the `existsSync` / `readFileSync` / `JSON.parse` pipeline
that `load` runs on the state file (the filesystem is an external
collaborator). -/
inductive StateLoadInput where
  | missing
  | readFailure
  | parseFailure
  | parsed (j : Json)

/-- A JS `Error` value as observed by the deployer's error handling:
its message and its optional `code` property. -/
structure JsErr where
  message : String
  code : Option String
deriving Repr, DecidableEq

/-- Property access `v[k]` where `v` may be `undefined`/`null`:
a TypeError on `undefined`/`null`, otherwise a plain read. -/
def jsIndexThrow (v : Option Json) (k : String) : Except JsErr (Option Json) :=
  match v with
  | none => .error ⟨"Cannot read properties of undefined", none⟩
  | some .null => .error ⟨"Cannot read properties of null", none⟩
  | some j => .ok (Json.jsGet j k)

/-- `StateManager.load`: on a read or parse failure, or a missing file,
start empty; on parsed JSON, keep it only when
`parsed.version === STATE_VERSION` and `parsed.stacks` is a non-null
non-array object (a `null` parse result would throw on property access
inside the same `try`, which is also caught — the fallback is the same
empty state). -/
def loadState : StateLoadInput → Json
  | .missing => emptyStateJ
  | .readFailure => emptyStateJ
  | .parseFailure => emptyStateJ
  | .parsed j =>
    match j with
    | .null => emptyStateJ
    | _ =>
      if Json.jsStrictEq (Json.jsGet j "version") (some (.num STATE_VERSION))
          && (match Json.jsGet j "stacks" with
              | some (.obj _) => true
              | _ => false) then
        j
      else emptyStateJ

/-- `getResource(stackId, logicalId)`:
`this.state.stacks[stackId]?.resources[logicalId]`. -/
def getResource (state : Json) (stackId logicalId : String) :
    Except JsErr (Option Json) := do
  let stacksVal := Json.jsGet state "stacks"
  let entry ← jsIndexThrow stacksVal stackId
  match entry with
  | none => .ok none
  | some .null => .ok none
  | some j => jsIndexThrow (Json.jsGet j "resources") logicalId

/-- `setResource(stackId, resource)`: create the stack entry when absent
(falsy), then assign `resources[logicalId] = resource`.  The state
always has an object `stacks` field (guaranteed by `load`). -/
def setResource (state : Json) (stackId : String) (logicalId : String)
    (resource : Json) : Json :=
  let stacksFields := match Json.jsGet state "stacks" with
    | some (.obj fs) => fs
    | _ => []
  let entry := Json.lookupField stacksFields stackId
  let entryVal := if Json.jsTruthyO entry then entry.getD (.obj [])
    else .obj [("resources", .obj [])]
  let resFields := match Json.jsGet entryVal "resources" with
    | some (.obj fs) => fs
    | _ => []
  let entryVal' := Json.jsSet entryVal "resources"
    (.obj (Json.setField resFields logicalId resource))
  Json.jsSet state "stacks" (.obj (Json.setField stacksFields stackId entryVal'))

/-- `removeResource(stackId, logicalId)`: delete the resource entry and
prune the stack entry when its resource map becomes empty. -/
def removeResource (state : Json) (stackId logicalId : String) : Json :=
  let stacksFields := match Json.jsGet state "stacks" with
    | some (.obj fs) => fs
    | _ => []
  let entry := Json.lookupField stacksFields stackId
  if Json.jsTruthyO entry then
    let entryVal := entry.getD (.obj [])
    let resFields := match Json.jsGet entryVal "resources" with
      | some (.obj fs) => fs
      | _ => []
    let resFields' := Json.delField resFields logicalId
    if resFields'.isEmpty then
      Json.jsSet state "stacks" (.obj (Json.delField stacksFields stackId))
    else
      Json.jsSet state "stacks" (.obj (Json.setField stacksFields stackId
        (Json.jsSet entryVal "resources" (.obj resFields'))))
  else state

structure CouponProps where
  duration : String
  amountOff : Option Int := none
  currency : Option String := none
  percentOff : Option Int := none
  durationInMonths : Option Int := none
  maxRedemptions : Option Int := none
  metadata : Option Json := none
  name : Option String := none
  redeemBy : Option Int := none
  appliesTo : Option Json := none

/-- `new Coupon(scope, id, props)` — the validation part of the
constructor; returns the constructed fields or throws. -/
def mkCoupon (p : CouponProps) : Except String CouponProps :=
  if p.amountOff.isSome == p.percentOff.isSome then
    .error "Exactly one of amountOff or percentOff must be specified"
  else if p.duration == "repeating" && p.durationInMonths.isNone then
    .error "durationInMonths is required when duration is \"repeating\""
  else if p.amountOff.isSome && p.currency.isNone then
    .error "currency is required when amountOff is specified"
  else .ok p

/-- A conditional field of an object literal: present only when set. -/
def optField (k : String) : Option Json → List (String × Json)
  | some v => [(k, v)]
  | none => []

/-- `Coupon.synthesizeProperties`. -/
def couponSynthesizeProperties (p : CouponProps) : Json :=
  .obj ([("duration", .str p.duration)]
    ++ optField "amount_off" (p.amountOff.map Json.num)
    ++ optField "currency" (p.currency.map Json.str)
    ++ optField "percent_off" (p.percentOff.map Json.num)
    ++ optField "duration_in_months" (p.durationInMonths.map Json.num)
    ++ optField "max_redemptions" (p.maxRedemptions.map Json.num)
    ++ optField "metadata" p.metadata
    ++ optField "name" (p.name.map Json.str)
    ++ optField "redeem_by" (p.redeemBy.map Json.num)
    ++ optField "applies_to" p.appliesTo)

def EMPTY_LOGICAL_ID_ERROR : String :=
  "Construct id must not be an empty string. " ++
  "Provide a unique non-empty identifier as the second argument."

def DUPLICATE_LOGICAL_ID_ERROR (id path : String) : String :=
  "There is already a child construct with id \"" ++ id ++ "\" under \"" ++ path ++
  "\". Each construct within the same scope must have a unique id."

structure CNode where
  id : String
  children : List CNode

/-- `ConstructNode.addChild`: reject a sibling with the same id, else
append. -/
def addChild (parent : CNode) (parentPath : String) (child : CNode) :
    Except String CNode :=
  if (parent.children.find? (fun c => c.id == child.id)).isSome then
    .error (DUPLICATE_LOGICAL_ID_ERROR child.id parentPath)
  else
    .ok { parent with children := parent.children ++ [child] }

/-- `id.trim() === ''`: the id is empty or whitespace-only. -/
def trimIsEmpty (s : String) : Bool := s.data.all fun c => c.isWhitespace

/-- `new Construct(scope, id)`: reject an empty or whitespace-only id,
then register with the scope; returns the new node and the updated
scope. -/
def mkConstruct (scope : Option CNode) (scopePath : String) (id : String) :
    Except String (CNode × Option CNode) :=
  if trimIsEmpty id then .error EMPTY_LOGICAL_ID_ERROR
  else
    let node : CNode := ⟨id, []⟩
    match scope with
    | some p => (addChild p scopePath node).map fun p' => (node, some p')
    | none => .ok (node, none)

/-- A remote Stripe object: its id plus its JSON body. -/
structure SObj where
  id : String
  fields : Json
deriving Repr

/-- `ResourceManifest` from @pricectl/core. -/
structure ResourceManifest where
  id : String
  path : String
  type : String
  properties : Json
deriving Repr

/-- `StackManifest` (the parts the deployer consumes). -/
structure StackManifest where
  stackId : String
  resources : List ResourceManifest
deriving Repr

/-- One recorded SDK call. -/
inductive SCall where
  | productsSearch (query : String) (limit : Int)
  | productsRetrieve (id : Json)
  | productsCreate (params : Json)
  | productsUpdate (id : String) (params : Json)
  | productsDel (id : String)
  | pricesSearch (query : String) (limit : Int)
  | pricesRetrieve (id : Json)
  | pricesCreate (params : Json)
  | pricesUpdate (id : String) (params : Json)
  | couponsRetrieve (id : String)
  | couponsCreate (params : Json)
  | couponsDel (id : String)
  | featuresList (limit : Int)
  | featuresCreate (params : Json)
  | featuresUpdate (id : String) (params : Json)
  | metersList (limit : Int)
  | metersCreate (params : Json)
  | metersUpdate (id : String) (params : Json)
  | metersDeactivate (id : String)
deriving Repr

/-- The Stripe SDK surface the deployer consumes, as stateful
operations over an opaque remote state `σ`; `now` models
`new Date().toISOString()` and `digest` the sha256-hex step. -/
structure SEnv (σ : Type) where
  productsSearch : σ → String → Except JsErr (List SObj) × σ
  productsRetrieve : σ → Json → Except JsErr SObj × σ
  productsCreate : σ → Json → Except JsErr SObj × σ
  productsUpdate : σ → String → Json → Except JsErr SObj × σ
  productsDel : σ → String → Except JsErr Json × σ
  pricesSearch : σ → String → Except JsErr (List SObj) × σ
  pricesRetrieve : σ → Json → Except JsErr SObj × σ
  pricesCreate : σ → Json → Except JsErr SObj × σ
  pricesUpdate : σ → String → Json → Except JsErr SObj × σ
  couponsRetrieve : σ → String → Except JsErr SObj × σ
  couponsCreate : σ → Json → Except JsErr SObj × σ
  couponsDel : σ → String → Except JsErr Json × σ
  featuresList : σ → Int → Except JsErr (List SObj) × σ
  featuresCreate : σ → Json → Except JsErr SObj × σ
  featuresUpdate : σ → String → Json → Except JsErr SObj × σ
  metersList : σ → Int → Except JsErr (List SObj) × σ
  metersCreate : σ → Json → Except JsErr SObj × σ
  metersUpdate : σ → String → Json → Except JsErr SObj × σ
  metersDeactivate : σ → String → Except JsErr Json × σ
  now : String
  digest : String → String

/-- Remote state paired with the recorded call trace. -/
abbrev MS (σ : Type) := σ × List SCall

/-- Issue one SDK call: run the operation and record it. -/
def callOp {σ α : Type} (op : σ → Except JsErr α × σ) (c : SCall) :
    MS σ → Except JsErr α × MS σ :=
  fun s =>
    let (r, s') := op s.1
    (r, (s', s.2 ++ [c]))

/-- `isResourceNotFoundError`: a thrown value whose `code` property is
`'resource_missing'`. -/
def isResourceNotFoundError (e : JsErr) : Bool := e.code == some "resource_missing"

/-- The tag-based search query (current `pricectl_id` key OR legacy
`fillet_id` key), with the logical id escaped. -/
def searchQueryFor (lid : String) : String :=
  "metadata[\"pricectl_id\"]:\"" ++ escapeSearchQuery lid
    ++ "\" OR metadata[\"fillet_id\"]:\"" ++ escapeSearchQuery lid ++ "\""

/-- The state-store fast path of `findExistingProduct` (stripe-utils):
retrieve by the state-cached physical id; a stale id
(`resource_missing` or a deleted product) falls through to the search;
any other retrieval error propagates. -/
def productFastPath {σ : Type} (env : SEnv σ) (sm : Option Json)
    (stackId lid : String) : MS σ → Except JsErr (Option SObj) × MS σ := fun s =>
  match sm with
  | none => (.ok none, s)
  | some st =>
    if stackId = "" then (.ok none, s)
    else
      match getResource st stackId lid with
      | .error e => (.error e, s)
      | .ok stateEntry =>
        match Json.optChainGet stateEntry "physicalId" with
        | some phys =>
          if Json.jsTruthy phys then
            match callOp (fun σ0 => env.productsRetrieve σ0 phys) (.productsRetrieve phys) s with
            | (.ok p, s₁) =>
              if !(Json.jsTruthyO (Json.jsGet p.fields "deleted")) then (.ok (some p), s₁)
              else (.ok none, s₁)
            | (.error e, s₁) =>
              if isResourceNotFoundError e then (.ok none, s₁) else (.error e, s₁)
          else (.ok none, s)
        | none => (.ok none, s)

/-- The search fallback of `findExistingProduct`. -/
def productSearchPath {σ : Type} (env : SEnv σ) (lid : String) :
    MS σ → Except JsErr (Option SObj) × MS σ := fun s =>
  match callOp (fun σ0 => env.productsSearch σ0 (searchQueryFor lid))
      (.productsSearch (searchQueryFor lid) 1) s with
  | (.ok data, s₁) => (.ok data.head?, s₁)
  | (.error e, s₁) =>
    if isResourceNotFoundError e then (.ok none, s₁) else (.error e, s₁)

/-- `findExistingProduct` (stripe-utils): state fast path, then
tag-based search. -/
def findExistingProduct {σ : Type} (env : SEnv σ) (sm : Option Json)
    (stackId lid : String) : MS σ → Except JsErr (Option SObj) × MS σ := fun s =>
  match productFastPath env sm stackId lid s with
  | (.ok (some p), s₁) => (.ok (some p), s₁)
  | (.ok none, s₁) => productSearchPath env lid s₁
  | (.error e, s₁) => (.error e, s₁)

/-- The state-store fast path of `findExistingPrice` (a retrieved price
is returned unconditionally — no deleted check for prices). -/
def priceFastPath {σ : Type} (env : SEnv σ) (sm : Option Json)
    (stackId lid : String) : MS σ → Except JsErr (Option SObj) × MS σ := fun s =>
  match sm with
  | none => (.ok none, s)
  | some st =>
    if stackId = "" then (.ok none, s)
    else
      match getResource st stackId lid with
      | .error e => (.error e, s)
      | .ok stateEntry =>
        match Json.optChainGet stateEntry "physicalId" with
        | some phys =>
          if Json.jsTruthy phys then
            match callOp (fun σ0 => env.pricesRetrieve σ0 phys) (.pricesRetrieve phys) s with
            | (.ok p, s₁) => (.ok (some p), s₁)
            | (.error e, s₁) =>
              if isResourceNotFoundError e then (.ok none, s₁) else (.error e, s₁)
          else (.ok none, s)
        | none => (.ok none, s)

/-- The search fallback of `findExistingPrice`. -/
def priceSearchPath {σ : Type} (env : SEnv σ) (lid : String) :
    MS σ → Except JsErr (Option SObj) × MS σ := fun s =>
  match callOp (fun σ0 => env.pricesSearch σ0 (searchQueryFor lid))
      (.pricesSearch (searchQueryFor lid) 1) s with
  | (.ok data, s₁) => (.ok data.head?, s₁)
  | (.error e, s₁) =>
    if isResourceNotFoundError e then (.ok none, s₁) else (.error e, s₁)

/-- `findExistingPrice` (stripe-utils). -/
def findExistingPrice {σ : Type} (env : SEnv σ) (sm : Option Json)
    (stackId lid : String) : MS σ → Except JsErr (Option SObj) × MS σ := fun s =>
  match priceFastPath env sm stackId lid s with
  | (.ok (some p), s₁) => (.ok (some p), s₁)
  | (.ok none, s₁) => priceSearchPath env lid s₁
  | (.error e, s₁) => (.error e, s₁)

/-- `findExistingCoupon`: direct retrieval by logical id; a
`resource_missing` error is "not found", any other error propagates. -/
def findExistingCoupon {σ : Type} (env : SEnv σ) (lid : String) :
    MS σ → Except JsErr (Option SObj) × MS σ := fun s =>
  match callOp (fun σ0 => env.couponsRetrieve σ0 lid) (.couponsRetrieve lid) s with
  | (.ok c, s₁) => (.ok (some c), s₁)
  | (.error e, s₁) =>
    if isResourceNotFoundError e then (.ok none, s₁) else (.error e, s₁)

/-- `findExistingEntitlementFeature`: list (limit 100) and match on
`lookup_key`. -/
def findExistingEntitlementFeature {σ : Type} (env : SEnv σ) (lookupKey : Option Json) :
    MS σ → Except JsErr (Option SObj) × MS σ := fun s =>
  match callOp (fun σ0 => env.featuresList σ0 100) (.featuresList 100) s with
  | (.ok data, s₁) =>
    (.ok (data.find? fun f => Json.jsStrictEq (Json.jsGet f.fields "lookup_key") lookupKey), s₁)
  | (.error e, s₁) =>
    if isResourceNotFoundError e then (.ok none, s₁) else (.error e, s₁)

/-- `findExistingBillingMeter`: list (limit 100) and match on
`event_name`. -/
def findExistingBillingMeter {σ : Type} (env : SEnv σ) (eventName : Option Json) :
    MS σ → Except JsErr (Option SObj) × MS σ := fun s =>
  match callOp (fun σ0 => env.metersList σ0 100) (.metersList 100) s with
  | (.ok data, s₁) =>
    (.ok (data.find? fun m => Json.jsStrictEq (Json.jsGet m.fields "event_name") eventName), s₁)
  | (.error e, s₁) =>
    if isResourceNotFoundError e then (.ok none, s₁) else (.error e, s₁)

/-- `typeof p === 'string' ? p : p?.id` — the product linkage of a
price, for either side of the comparison. -/
def productRefOf (v : Option Json) : Option Json :=
  match v with
  | some (.str s) => some (.str s)
  | other => Json.optChainGet other "id"

/-- The `recurring` fragment of `comparePriceProperties`: `true` means
"did not return false". -/
def compareRecurring (ev dv : Option Json) : Bool :=
  if Json.jsTruthyO dv then
    if !(Json.jsTruthyO ev) then false
    else
      Json.jsStrictEq (Json.jsGet (ev.getD .null) "interval") (Json.jsGet (dv.getD .null) "interval")
      && Json.jsStrictEq (Json.jsGet (ev.getD .null) "interval_count")
          (Json.jsGet (dv.getD .null) "interval_count")
      && Json.jsStrictEq (Json.jsGet (ev.getD .null) "usage_type")
          (Json.jsGet (dv.getD .null) "usage_type")
      && Json.jsStrictEq (Json.nullToUndef (Json.jsGet (ev.getD .null) "trial_period_days"))
          (Json.nullToUndef (Json.jsGet (dv.getD .null) "trial_period_days"))
  else !(Json.jsTruthyO ev)

/-- One tier comparison (fields of `tiers[i]` on both sides). -/
def compareTier (et dt : Option Json) : Bool :=
  Json.jsStrictEq (Json.optChainGet et "up_to") (Json.optChainGet dt "up_to")
  && Json.jsStrictEq (Json.optChainGet et "unit_amount") (Json.optChainGet dt "unit_amount")
  && Json.jsStrictEq (Json.optChainGet et "unit_amount_decimal")
      (Json.optChainGet dt "unit_amount_decimal")
  && Json.jsStrictEq (Json.optChainGet et "flat_amount") (Json.optChainGet dt "flat_amount")
  && Json.jsStrictEq (Json.optChainGet et "flat_amount_decimal")
      (Json.optChainGet dt "flat_amount_decimal")

/-- The `tiers` fragment of `comparePriceProperties` (lengths must
strictly match, then element-wise comparison; the loop runs only when
`desired.tiers` is an array). -/
def compareTiers (ev dv : Option Json) : Bool :=
  if Json.jsTruthyO dv then
    if !(Json.jsTruthyO ev) then false
    else if !(Json.jsStrictEq (Json.jsLen (ev.getD .null)) (Json.jsLen (dv.getD .null))) then false
    else
      match dv with
      | some (.arr ds) =>
        (List.range ds.length).all fun i =>
          compareTier (Json.jsIndex (ev.getD .null) i) (Json.jsIndex (dv.getD .null) i)
      | _ => true
  else !(Json.jsTruthyO ev)

/-- The `transform_quantity` fragment of `comparePriceProperties`. -/
def compareTransformQuantity (ev dv : Option Json) : Bool :=
  if Json.jsTruthyO dv then
    if !(Json.jsTruthyO ev) then false
    else
      Json.jsStrictEq (Json.jsGet (ev.getD .null) "divide_by") (Json.jsGet (dv.getD .null) "divide_by")
      && Json.jsStrictEq (Json.jsGet (ev.getD .null) "round") (Json.jsGet (dv.getD .null) "round")
  else !(Json.jsTruthyO ev)

/-- `StripeDeployer.comparePriceProperties`: `true` iff the existing
remote price agrees with the desired params on every compared field
(product, currency, unit_amount, unit_amount_decimal, active, nickname,
tax_behavior, recurring sub-fields, billing_scheme, tiers_mode, tiers,
transform_quantity, lookup_key).  Prices are immutable; `false` drives
the deactivate-and-recreate path. -/
def comparePriceProperties (existing : SObj) (desired : Json) : Bool :=
  let ef := existing.fields
  if !(Json.jsStrictEq (productRefOf (Json.jsGet ef "product"))
      (productRefOf (Json.jsGet desired "product"))) then false
  else if !(Json.jsStrictEq (Json.jsGet ef "currency") (Json.jsGet desired "currency")) then false
  else if !(Json.jsStrictEq (Json.jsGet ef "unit_amount") (Json.jsGet desired "unit_amount")) then false
  else if !(Json.jsStrictEq (Json.jsGet ef "unit_amount_decimal")
      (Json.jsGet desired "unit_amount_decimal")) then false
  else if !(Json.jsStrictEq (Json.jsGet ef "active") (Json.jsGet desired "active")) then false
  else if !(Json.jsStrictEq (Json.jsGet ef "nickname") (Json.jsGet desired "nickname")) then false
  else if !(Json.jsStrictEq (Json.nullToUndef (Json.jsGet ef "tax_behavior"))
      (Json.nullToUndef (Json.jsGet desired "tax_behavior"))) then false
  else if !(compareRecurring (Json.jsGet ef "recurring") (Json.jsGet desired "recurring")) then false
  else if !(Json.jsStrictEq (Json.nullToUndef (Json.jsGet ef "billing_scheme"))
      (Json.nullToUndef (Json.jsGet desired "billing_scheme"))) then false
  else if !(Json.jsStrictEq (Json.jsGet desired "tiers_mode") (Json.jsGet ef "tiers_mode")) then false
  else if !(compareTiers (Json.jsGet ef "tiers") (Json.jsGet desired "tiers")) then false
  else if !(compareTransformQuantity (Json.jsGet ef "transform_quantity")
      (Json.jsGet desired "transform_quantity")) then false
  else Json.jsStrictEq (Json.jsGet ef "lookup_key") (Json.jsGet desired "lookup_key")

/-- The JS `Map` used for `logicalToPhysicalId`: `set` overwrites in
place keeping insertion position. -/
def tblSet : List (String × String) → String → String → List (String × String)
  | [], k, v => [(k, v)]
  | p :: ps, k, v => if p.1 = k then (k, v) :: ps else p :: tblSet ps k v

def tblGet : List (String × String) → String → Option String
  | [], _ => none
  | p :: ps, k => if p.1 = k then some p.2 else tblGet ps k

/-- `StripeDeployer.resolveDependencies`: when the bag's `product`
field is a truthy string and the table maps it to a truthy physical id,
substitute the physical id. -/
def resolveDependencies (tbl : List (String × String)) (properties : Json) : Json :=
  match Json.jsGet properties "product" with
  | some (.str s) =>
    if s ≠ "" then
      match tblGet tbl s with
      | some phys =>
        if phys ≠ "" then Json.jsSet properties "product" (.str phys) else properties
      | none => properties
    else properties
  | _ => properties

/-- Field list of an object value, `[]` otherwise. -/
def fieldsOf : Json → List (String × Json)
  | .obj fs => fs
  | _ => []

/-- Object spread with one key overridden:
`{...props, k: v}`.  (A non-object spread target yields an empty base,
matching `{...null}`/`{...undefined}`; bags are objects in practice.) -/
def topSpreadSet (props : Json) (k : String) (v : Json) : Json :=
  .obj (Json.setField (fieldsOf props) k v)

/-- `{...props.metadata, extra...}` — the pricectl identity tags merged
over the user metadata. -/
def metaMergeFields (props : Json) (extra : List (String × Json)) : Json :=
  let base := match Json.jsGet props "metadata" with
    | some (.obj fs) => fs
    | _ => []
  .obj (extra.foldl (fun acc kv => Json.setField acc kv.1 kv.2) base)

/-- `validateProductCreateParams`: reject non-object properties
(`typeof x === 'object' && x !== null`; arrays pass `typeof`). -/
def validateProductCreateParams (properties : Json) : Except JsErr Json :=
  match properties with
  | .obj fs => .ok (.obj fs)
  | .arr xs => .ok (.arr xs)
  | _ => .error ⟨"Invalid product properties: expected an object", none⟩

structure DeployedEntry where
  id : String
  type : String
  physicalId : String
  status : String
deriving Repr, DecidableEq

structure ErrorEntry where
  id : String
  type : String
  error : String
deriving Repr, DecidableEq

structure DeployResult where
  stackId : String
  deployed : List DeployedEntry
  errors : List ErrorEntry
deriving Repr, DecidableEq

structure DestroyedEntry where
  id : String
  type : String
  status : String
deriving Repr, DecidableEq

structure DestroyResult where
  stackId : String
  destroyed : List DestroyedEntry
  errors : List ErrorEntry
deriving Repr, DecidableEq

/-- The product create/update params: properties spread with the
identity tags and the properties hash injected into metadata. -/
def productParamsWithMeta (r : ResourceManifest) (props : Json) (desiredHash : String) : Json :=
  topSpreadSet props "metadata" (metaMergeFields props
    [("pricectl_id", .str r.id), ("pricectl_path", .str r.path),
     ("pricectl_properties_hash", .str desiredHash)])

/-- `StripeDeployer.deployProduct`: hash short-circuit to `unchanged`,
else update; create when not found. -/
def deployProduct {σ : Type} (env : SEnv σ) (sm : Option Json) (stackId : String)
    (r : ResourceManifest) : MS σ → Except JsErr DeployedEntry × MS σ := fun s =>
  match validateProductCreateParams r.properties with
  | .error e => (.error e, s)
  | .ok props =>
    match findExistingProduct env sm stackId r.id s with
    | (.error e, s₁) => (.error e, s₁)
    | (.ok (some ex), s₁) =>
      let desiredHash := computePropertiesHash env.digest r.properties
      let existingHash :=
        Json.optChainGet (Json.jsGet ex.fields "metadata") "pricectl_properties_hash"
      if Json.jsStrictEq existingHash (some (.str desiredHash)) then
        (.ok ⟨r.id, r.type, ex.id, "unchanged"⟩, s₁)
      else
        match callOp
            (fun σ0 => env.productsUpdate σ0 ex.id (productParamsWithMeta r props desiredHash))
            (.productsUpdate ex.id (productParamsWithMeta r props desiredHash)) s₁ with
        | (.ok upd, s₂) => (.ok ⟨r.id, r.type, upd.id, "updated"⟩, s₂)
        | (.error e, s₂) => (.error e, s₂)
    | (.ok none, s₁) =>
      let desiredHash := computePropertiesHash env.digest r.properties
      match callOp
          (fun σ0 => env.productsCreate σ0 (productParamsWithMeta r props desiredHash))
          (.productsCreate (productParamsWithMeta r props desiredHash)) s₁ with
      | (.ok created, s₂) => (.ok ⟨r.id, r.type, created.id, "created"⟩, s₂)
      | (.error e, s₂) => (.error e, s₂)

/-- `{active: false}`. -/
def activeFalse : Json := .obj [("active", .bool false)]

/-- The price create params: resolved properties spread with the
identity tags injected into metadata. -/
def priceParamsWithMeta (r : ResourceManifest) (props : Json) : Json :=
  topSpreadSet props "metadata" (metaMergeFields props
    [("pricectl_id", .str r.id), ("pricectl_path", .str r.path)])

/-- The body of `StripeDeployer.deployPrice` after dependency
resolution (`props` is the already-resolved bag): if an existing price
is found and compares equal, `unchanged`; if it differs, deactivate the
old remote id then create a new price (`created` with the new id); if
not found, create. -/
def deployPriceWith {σ : Type} (env : SEnv σ) (sm : Option Json) (stackId : String)
    (r : ResourceManifest) (props : Json) : MS σ → Except JsErr DeployedEntry × MS σ := fun s =>
  match findExistingPrice env sm stackId r.id s with
  | (.error e, s₁) => (.error e, s₁)
  | (.ok (some existing), s₁) =>
    if comparePriceProperties existing props then
      (.ok ⟨r.id, r.type, existing.id, "unchanged"⟩, s₁)
    else
      match callOp (fun σ0 => env.pricesUpdate σ0 existing.id activeFalse)
          (.pricesUpdate existing.id activeFalse) s₁ with
      | (.error e, s₂) => (.error e, s₂)
      | (.ok _, s₂) =>
        match callOp (fun σ0 => env.pricesCreate σ0 (priceParamsWithMeta r props))
            (.pricesCreate (priceParamsWithMeta r props)) s₂ with
        | (.ok created, s₃) => (.ok ⟨r.id, r.type, created.id, "created"⟩, s₃)
        | (.error e, s₃) => (.error e, s₃)
  | (.ok none, s₁) =>
    match callOp (fun σ0 => env.pricesCreate σ0 (priceParamsWithMeta r props))
        (.pricesCreate (priceParamsWithMeta r props)) s₁ with
    | (.ok created, s₂) => (.ok ⟨r.id, r.type, created.id, "created"⟩, s₂)
    | (.error e, s₂) => (.error e, s₂)

/-- `StripeDeployer.deployPrice`: resolve the product dependency, then
apply. -/
def deployPrice {σ : Type} (env : SEnv σ) (sm : Option Json) (stackId : String)
    (tbl : List (String × String)) (r : ResourceManifest) :
    MS σ → Except JsErr DeployedEntry × MS σ :=
  deployPriceWith env sm stackId r (resolveDependencies tbl r.properties)

/-- The coupon create params: `{...props, id: resource.id, metadata: {...}}`. -/
def couponParams (r : ResourceManifest) : Json :=
  topSpreadSet (topSpreadSet r.properties "id" (.str r.id)) "metadata"
    (metaMergeFields r.properties [("pricectl_id", .str r.id), ("pricectl_path", .str r.path)])

/-- `StripeDeployer.deployCoupon`: found ⇒ `unchanged`; else create
with the logical id as the remote id. -/
def deployCoupon {σ : Type} (env : SEnv σ) (r : ResourceManifest) :
    MS σ → Except JsErr DeployedEntry × MS σ := fun s =>
  match findExistingCoupon env r.id s with
  | (.error e, s₁) => (.error e, s₁)
  | (.ok (some ex), s₁) => (.ok ⟨r.id, r.type, ex.id, "unchanged"⟩, s₁)
  | (.ok none, s₁) =>
    match callOp (fun σ0 => env.couponsCreate σ0 (couponParams r))
        (.couponsCreate (couponParams r)) s₁ with
    | (.ok created, s₂) => (.ok ⟨r.id, r.type, created.id, "created"⟩, s₂)
    | (.error e, s₂) => (.error e, s₂)

/-- `{ name: props.name, metadata: {...} }` for a feature update (the
SDK drops `undefined`-valued keys). -/
def featureUpdateParams (r : ResourceManifest) : Json :=
  .obj (optField "name" (Json.jsGet r.properties "name")
    ++ [("metadata", metaMergeFields r.properties
        [("pricectl_id", .str r.id), ("pricectl_path", .str r.path)])])

def featureCreateParams (r : ResourceManifest) : Json :=
  topSpreadSet r.properties "metadata" (metaMergeFields r.properties
    [("pricectl_id", .str r.id), ("pricectl_path", .str r.path)])

/-- `StripeDeployer.deployEntitlementFeature`: find by `lookup_key`;
found ⇒ update the name, else create. -/
def deployEntitlementFeature {σ : Type} (env : SEnv σ) (r : ResourceManifest) :
    MS σ → Except JsErr DeployedEntry × MS σ := fun s =>
  match findExistingEntitlementFeature env (Json.jsGet r.properties "lookup_key") s with
  | (.error e, s₁) => (.error e, s₁)
  | (.ok (some ex), s₁) =>
    match callOp (fun σ0 => env.featuresUpdate σ0 ex.id (featureUpdateParams r))
        (.featuresUpdate ex.id (featureUpdateParams r)) s₁ with
    | (.ok upd, s₂) => (.ok ⟨r.id, r.type, upd.id, "updated"⟩, s₂)
    | (.error e, s₂) => (.error e, s₂)
  | (.ok none, s₁) =>
    match callOp (fun σ0 => env.featuresCreate σ0 (featureCreateParams r))
        (.featuresCreate (featureCreateParams r)) s₁ with
    | (.ok created, s₂) => (.ok ⟨r.id, r.type, created.id, "created"⟩, s₂)
    | (.error e, s₂) => (.error e, s₂)

/-- `StripeDeployer.deployBillingMeter`: find by `event_name`; found ⇒
update the display name only, else create (no metadata injection for
meters). -/
def deployBillingMeter {σ : Type} (env : SEnv σ) (r : ResourceManifest) :
    MS σ → Except JsErr DeployedEntry × MS σ := fun s =>
  match findExistingBillingMeter env (Json.jsGet r.properties "event_name") s with
  | (.error e, s₁) => (.error e, s₁)
  | (.ok (some ex), s₁) =>
    match callOp (fun σ0 => env.metersUpdate σ0 ex.id
        (.obj (optField "display_name" (Json.jsGet r.properties "display_name"))))
        (.metersUpdate ex.id (.obj (optField "display_name" (Json.jsGet r.properties "display_name")))) s₁ with
    | (.ok upd, s₂) => (.ok ⟨r.id, r.type, upd.id, "updated"⟩, s₂)
    | (.error e, s₂) => (.error e, s₂)
  | (.ok none, s₁) =>
    match callOp (fun σ0 => env.metersCreate σ0 r.properties)
        (.metersCreate r.properties) s₁ with
    | (.ok created, s₂) => (.ok ⟨r.id, r.type, created.id, "created"⟩, s₂)
    | (.error e, s₂) => (.error e, s₂)

/-- `StripeDeployer.deployResource`: dispatch by resource type; an
unknown type throws. -/
def deployResource {σ : Type} (env : SEnv σ) (sm : Option Json) (stackId : String)
    (tbl : List (String × String)) (r : ResourceManifest) :
    MS σ → Except JsErr DeployedEntry × MS σ := fun s =>
  if r.type = "Stripe::Product" then deployProduct env sm stackId r s
  else if r.type = "Stripe::Price" then deployPrice env sm stackId tbl r s
  else if r.type = "Stripe::Coupon" then deployCoupon env r s
  else if r.type = "Stripe::EntitlementFeature" then deployEntitlementFeature env r s
  else if r.type = "Stripe::BillingMeter" then deployBillingMeter env r s
  else (.error ⟨"Unknown resource type: " ++ r.type, none⟩, s)

/-- The `ResourceState` record written to the state store on a
successful per-entry deploy. -/
def mkResourceState (r : ResourceManifest) (physicalId : String)
    (now hash : String) : Json :=
  .obj [("logicalId", .str r.id), ("physicalId", .str physicalId),
        ("type", .str r.type), ("path", .str r.path),
        ("lastDeployedAt", .str now), ("propertiesHash", .str hash)]

/-- The deploy loop: process entries in manifest order; a success
appends a deployed entry, records the logical→physical mapping, and
updates the state store; a thrown error is caught at the entry boundary
and recorded with the entry's id, type, and message — the loop always
continues. -/
def deployGo {σ : Type} (env : SEnv σ) (stackId : String) :
    List ResourceManifest → Option Json → List (String × String) → DeployResult → MS σ →
    DeployResult × Option Json × List (String × String) × MS σ
  | [], sm, tbl, acc, s => (acc, sm, tbl, s)
  | r :: rest, sm, tbl, acc, s =>
    match deployResource env sm stackId tbl r s with
    | (.ok d, s') =>
      deployGo env stackId rest
        (sm.map fun st => setResource st stackId r.id
          (mkResourceState r d.physicalId env.now
            (computePropertiesHash env.digest r.properties)))
        (tblSet tbl r.id d.physicalId)
        { acc with deployed := acc.deployed ++ [d] } s'
    | (.error e, s') =>
      deployGo env stackId rest sm tbl
        { acc with errors := acc.errors ++ [⟨r.id, r.type, e.message⟩] } s'

/-- `StripeDeployer.deploy`: the `logicalToPhysicalId` map is cleared at
the start of every run (`priorTbl`, the deployer's leftover table from
any earlier run, is discarded), then the manifest is processed in
declaration order. -/
def deploy {σ : Type} (env : SEnv σ) (m : StackManifest)
    (priorTbl : List (String × String)) (sm : Option Json) (s : MS σ) :
    DeployResult × Option Json × List (String × String) × MS σ :=
  deployGo env m.stackId m.resources sm [] ⟨m.stackId, [], []⟩ s

/-- `StripeDeployer.destroyResource`: per-kind teardown; a not-found
resource is a no-op returning `null`. -/
def destroyResource {σ : Type} (env : SEnv σ) (sm : Option Json) (stackId : String)
    (r : ResourceManifest) : MS σ → Except JsErr (Option DestroyedEntry) × MS σ := fun s =>
  if r.type = "Stripe::Product" then
    match findExistingProduct env sm stackId r.id s with
    | (.error e, s₁) => (.error e, s₁)
    | (.ok (some ex), s₁) =>
      match callOp (fun σ0 => env.productsDel σ0 ex.id) (.productsDel ex.id) s₁ with
      | (.ok _, s₂) => (.ok (some ⟨r.id, r.type, "deleted"⟩), s₂)
      | (.error e, s₂) => (.error e, s₂)
    | (.ok none, s₁) => (.ok none, s₁)
  else if r.type = "Stripe::Price" then
    match findExistingPrice env sm stackId r.id s with
    | (.error e, s₁) => (.error e, s₁)
    | (.ok (some ex), s₁) =>
      match callOp (fun σ0 => env.pricesUpdate σ0 ex.id activeFalse)
          (.pricesUpdate ex.id activeFalse) s₁ with
      | (.ok _, s₂) => (.ok (some ⟨r.id, r.type, "deactivated"⟩), s₂)
      | (.error e, s₂) => (.error e, s₂)
    | (.ok none, s₁) => (.ok none, s₁)
  else if r.type = "Stripe::Coupon" then
    match findExistingCoupon env r.id s with
    | (.error e, s₁) => (.error e, s₁)
    | (.ok (some ex), s₁) =>
      match callOp (fun σ0 => env.couponsDel σ0 ex.id) (.couponsDel ex.id) s₁ with
      | (.ok _, s₂) => (.ok (some ⟨r.id, r.type, "deleted"⟩), s₂)
      | (.error e, s₂) => (.error e, s₂)
    | (.ok none, s₁) => (.ok none, s₁)
  else if r.type = "Stripe::EntitlementFeature" then
    match findExistingEntitlementFeature env (Json.jsGet r.properties "lookup_key") s with
    | (.error e, s₁) => (.error e, s₁)
    | (.ok (some ex), s₁) =>
      match callOp (fun σ0 => env.featuresUpdate σ0 ex.id activeFalse)
          (.featuresUpdate ex.id activeFalse) s₁ with
      | (.ok _, s₂) => (.ok (some ⟨r.id, r.type, "deactivated"⟩), s₂)
      | (.error e, s₂) => (.error e, s₂)
    | (.ok none, s₁) => (.ok none, s₁)
  else if r.type = "Stripe::BillingMeter" then
    match findExistingBillingMeter env (Json.jsGet r.properties "event_name") s with
    | (.error e, s₁) => (.error e, s₁)
    | (.ok (some ex), s₁) =>
      match callOp (fun σ0 => env.metersDeactivate σ0 ex.id) (.metersDeactivate ex.id) s₁ with
      | (.ok _, s₂) => (.ok (some ⟨r.id, r.type, "deactivated"⟩), s₂)
      | (.error e, s₂) => (.error e, s₂)
    | (.ok none, s₁) => (.ok none, s₁)
  else (.error ⟨"Unknown resource type: " ++ r.type, none⟩, s)

/-- The destroy loop: a successful per-entry teardown (including the
no-op `null` case) removes the state entry; a `null` result pushes
nothing; an error is recorded and the loop continues. -/
def destroyGo {σ : Type} (env : SEnv σ) (stackId : String) :
    List ResourceManifest → Option Json → DestroyResult → MS σ →
    DestroyResult × Option Json × MS σ
  | [], sm, acc, s => (acc, sm, s)
  | r :: rest, sm, acc, s =>
    match destroyResource env sm stackId r s with
    | (.ok od, s') =>
      destroyGo env stackId rest
        (sm.map fun st => removeResource st stackId r.id)
        (match od with
         | some d => { acc with destroyed := acc.destroyed ++ [d] }
         | none => acc) s'
    | (.error e, s') =>
      destroyGo env stackId rest sm
        { acc with errors := acc.errors ++ [⟨r.id, r.type, e.message⟩] } s'

/-- `StripeDeployer.destroy`: process the manifest entries in reverse
declaration order. -/
def destroy {σ : Type} (env : SEnv σ) (m : StackManifest) (sm : Option Json)
    (s : MS σ) : DestroyResult × Option Json × MS σ :=
  destroyGo env m.stackId m.resources.reverse sm ⟨m.stackId, [], []⟩ s

/-- A mock remote with nothing in it: searches and lists return empty
pages, retrievals throw `resource_missing`, creates and updates echo
fixed objects. -/
def envAllMissing : SEnv Unit where
  productsSearch := fun s _ => (.ok [], s)
  productsRetrieve := fun s _ => (.error ⟨"No such product", some "resource_missing"⟩, s)
  productsCreate := fun s p => (.ok ⟨"prod_new", p⟩, s)
  productsUpdate := fun s i p => (.ok ⟨i, p⟩, s)
  productsDel := fun s _ => (.ok (.obj []), s)
  pricesSearch := fun s _ => (.ok [], s)
  pricesRetrieve := fun s _ => (.error ⟨"No such price", some "resource_missing"⟩, s)
  pricesCreate := fun s p => (.ok ⟨"price_new", p⟩, s)
  pricesUpdate := fun s i p => (.ok ⟨i, p⟩, s)
  couponsRetrieve := fun s _ => (.error ⟨"No such coupon", some "resource_missing"⟩, s)
  couponsCreate := fun s p => (.ok ⟨"coupon_new", p⟩, s)
  couponsDel := fun s _ => (.ok (.obj []), s)
  featuresList := fun s _ => (.ok [], s)
  featuresCreate := fun s p => (.ok ⟨"feat_new", p⟩, s)
  featuresUpdate := fun s i p => (.ok ⟨i, p⟩, s)
  metersList := fun s _ => (.ok [], s)
  metersCreate := fun s p => (.ok ⟨"mtr_new", p⟩, s)
  metersUpdate := fun s i p => (.ok ⟨i, p⟩, s)
  metersDeactivate := fun s _ => (.ok (.obj []), s)
  now := "2024-01-01T00:00:00.000Z"
  digest := fun _ => "0123456789abcdef0123456789abcdef"

/-- A mock remote whose product search throws a plain API error. -/
def envBoom : SEnv Unit :=
  { envAllMissing with productsSearch := fun s _ => (.error ⟨"API Error", none⟩, s) }

/-- An existing remote product found by search. -/
def prodFoundObj : SObj := ⟨"prod_1", .obj [("name", .str "Widget")]⟩

/-- An existing remote price found by search. -/
def priceFoundObj : SObj :=
  ⟨"price_1", .obj [("product", .str "prod_new"), ("currency", .str "usd"),
                    ("unit_amount", .num 500)]⟩

/-- A mock remote where the product and the price both exist. -/
def envFound : SEnv Unit :=
  { envAllMissing with
      productsSearch := fun s _ => (.ok [prodFoundObj], s)
      pricesSearch := fun s _ => (.ok [priceFoundObj], s) }

/-- A Price bag whose `product` is the logical id `"MyProduct"`. -/
def priceProps : Json :=
  .obj [("product", .str "MyProduct"), ("currency", .str "usd"), ("unit_amount", .num 999)]

def rProduct : ResourceManifest :=
  ⟨"MyProduct", "TestStack/MyProduct", "Stripe::Product", .obj [("name", .str "Widget")]⟩

def rPrice : ResourceManifest := ⟨"MyPrice", "TestStack/MyPrice", "Stripe::Price", priceProps⟩

def mProdPrice : StackManifest := ⟨"TestStack", [rProduct, rPrice]⟩

def mPrice1 : StackManifest := ⟨"TestStack", [rPrice]⟩

def mProd1 : StackManifest := ⟨"TestStack", [rProduct]⟩

/-- A Price entry whose bag agrees with `priceFoundObj` on every
compared field. -/
def rPriceSame : ResourceManifest :=
  ⟨"MyPrice", "TestStack/MyPrice", "Stripe::Price",
   .obj [("product", .str "prod_new"), ("currency", .str "usd"), ("unit_amount", .num 500)]⟩

theorem escBackslashPass_nil_iff (cs : List Char) :
    escBackslashPass cs = [] ↔ cs = [] := by
  constructor
  · intro h
    cases cs with
    | nil => rfl
    | cons c cs =>
      exfalso
      simp only [escBackslashPass, List.flatMap_cons] at h
      by_cases hc : c = '\\' <;> simp [hc] at h
  · intro h; subst h; rfl

theorem escQuotePass_nil_iff (cs : List Char) :
    escQuotePass cs = [] ↔ cs = [] := by
  constructor
  · intro h
    cases cs with
    | nil => rfl
    | cons c cs =>
      exfalso
      simp only [escQuotePass, List.flatMap_cons] at h
      by_cases hc : c = '"' <;> simp [hc] at h
  · intro h; subst h; rfl

theorem escQuotePass_append (a b : List Char) :
    escQuotePass (a ++ b) = escQuotePass a ++ escQuotePass b := by
  simp [escQuotePass]

theorem escape_pass_roundtrip (cs : List Char) :
    unescapeSearchChars (escQuotePass (escBackslashPass cs)) = cs := by
  induction cs with
  | nil => rfl
  | cons c cs ih =>
    by_cases hb : c = '\\'
    · subst hb
      have hstep : escBackslashPass ('\\' :: cs) = '\\' :: '\\' :: escBackslashPass cs := by
        simp [escBackslashPass]
      rw [hstep,
        show ('\\' :: '\\' :: escBackslashPass cs)
          = ['\\', '\\'] ++ escBackslashPass cs from rfl,
        escQuotePass_append,
        show escQuotePass ['\\', '\\'] = ['\\', '\\'] by rfl]
      simpa [unescapeSearchChars] using ih
    · have hstep : escBackslashPass (c :: cs) = c :: escBackslashPass cs := by
        simp [escBackslashPass, hb]
      by_cases hq : c = '"'
      · subst hq
        rw [hstep,
          show ('"' :: escBackslashPass cs) = ['"'] ++ escBackslashPass cs from rfl,
          escQuotePass_append,
          show escQuotePass ['"'] = ['\\', '"'] by rfl]
        simpa [unescapeSearchChars] using ih
      · have hsingle : escQuotePass [c] = [c] := by
          simp [escQuotePass, hq]
        rw [hstep,
          show (c :: escBackslashPass cs) = [c] ++ escBackslashPass cs from rfl,
          escQuotePass_append, hsingle]
        cases hrest : escQuotePass (escBackslashPass cs) with
        | nil =>
          have h1 : escBackslashPass cs = [] := by
            rcases (escQuotePass_nil_iff _).mp hrest with h
            exact h
          have h2 : cs = [] := (escBackslashPass_nil_iff cs).mp h1
          subst h2
          simp [unescapeSearchChars]
        | cons d ds =>
          have hne : ¬(c = '\\' ∧ (d = '"' ∨ d = '\\')) := by
            intro hcontra; exact hb hcontra.1
          rw [List.singleton_append]
          rw [show unescapeSearchChars (c :: d :: ds)
              = c :: unescapeSearchChars (d :: ds) by
            simp [unescapeSearchChars, hne]]
          rw [← hrest, ih]

/-- The escaping round-trips: the reverse rewriting recovers the
original id exactly. -/
theorem escapeSearchQuery_roundtrip (id : String) :
    unescapeSearchQuery (escapeSearchQuery id) = id := by
  cases id with
  | mk data =>
    simp only [escapeSearchQuery, unescapeSearchQuery]
    exact congrArg String.mk (escape_pass_roundtrip data)

/-- The escaping is injective. -/
theorem escapeSearchQuery_injective (a b : String)
    (h : escapeSearchQuery a = escapeSearchQuery b) : a = b := by
  have := congrArg unescapeSearchQuery h
  rwa [escapeSearchQuery_roundtrip, escapeSearchQuery_roundtrip] at this

/-! ## `StateManager.computePropertiesHash` (packages/cli/src/engine/state.ts)

```ts
static computePropertiesHash(properties): string {
  const canonical = this.canonicalizeProperties(properties);
  const json = JSON.stringify(canonical);
  return crypto.createHash('sha256').update(json).digest('hex').slice(0, 16);
}
private static canonicalizeProperties(value) {
  // primitives pass through; arrays map recursively;
  // objects: sort keys, recurse on values in sorted order
}
```
The SHA-256 digest is a call into the external crypto library; it is
modelled as an abstract digest function `String → String`.
`JSON.stringify` is modelled by `jsonStringify` below (compact form, no
whitespace, `"` and `\` escaped in strings; the `\uXXXX` escaping of
control characters is elided — it does not affect injectivity). -/

theorem insertField_perm (p : String × Json) (l : List (String × Json)) :
    (insertField p l).Perm (p :: l) := by
  induction l with
  | nil => simp [insertField]
  | cons q qs ih =>
    by_cases h : p.1 ≤ q.1
    · simp [insertField, h]
    · simp only [insertField, if_neg h]
      exact ((ih.cons q).trans (List.Perm.swap p q qs))

theorem sortFields_perm (l : List (String × Json)) :
    (sortFields l).Perm l := by
  induction l with
  | nil => simp [sortFields]
  | cons p ps ih =>
    exact (insertField_perm p (sortFields ps)).trans (ih.cons p)

theorem insertField_sorted (p : String × Json) (l : List (String × Json))
    (h : l.Sorted keyLE) : (insertField p l).Sorted keyLE := by
  induction l with
  | nil => simp [insertField, List.Sorted, keyLE]
  | cons q qs ih =>
    rcases List.sorted_cons.mp h with ⟨hq, hqs⟩
    by_cases hpq : p.1 ≤ q.1
    · simp only [insertField, if_pos hpq]
      refine List.sorted_cons.mpr ⟨?_, h⟩
      intro b hb
      rcases List.mem_cons.mp hb with hb | hb
      · subst hb; exact hpq
      · exact le_trans hpq (hq b hb)
    · simp only [insertField, if_neg hpq]
      refine List.sorted_cons.mpr ⟨?_, ih hqs⟩
      intro b hb
      rcases List.mem_cons.mp ((insertField_perm p qs).mem_iff.mp hb) with hb | hb
      · subst hb
        exact le_of_not_le hpq
      · exact hq b hb

theorem sortFields_sorted (l : List (String × Json)) :
    (sortFields l).Sorted keyLE := by
  induction l with
  | nil => simp [sortFields, List.Sorted]
  | cons p ps ih => exact insertField_sorted p (sortFields ps) ih

theorem keysNodupB_iff (ks : List String) :
    keysNodupB ks = true ↔ ks.Nodup := by
  induction ks with
  | nil => simp [keysNodupB]
  | cons k ks ih =>
    simp only [keysNodupB, Bool.and_eq_true, Bool.not_eq_true', List.nodup_cons, ← ih]
    constructor
    · rintro ⟨h1, h2⟩
      refine ⟨fun hm => ?_, h2⟩
      simp only [List.contains, (List.elem_iff).mpr hm] at h1
      cases h1
    · rintro ⟨h1, h2⟩
      refine ⟨?_, h2⟩
      cases hc : ks.contains k with
      | false => rfl
      | true =>
        simp only [List.contains] at hc
        exact absurd (List.elem_iff.mp hc) h1

/-- Two permuted field lists with no duplicate keys sort to the same
list. -/
theorem sortFields_eq_of_perm (a b : List (String × Json))
    (hperm : a.Perm b) (hnd : (a.map Prod.fst).Nodup) :
    sortFields a = sortFields b := by
  have hpa : (sortFields a).Perm a := sortFields_perm a
  have hpb : (sortFields b).Perm b := sortFields_perm b
  have hab : (sortFields a).Perm (sortFields b) :=
    (hpa.trans hperm).trans hpb.symm
  have hndA : ((sortFields a).map Prod.fst).Nodup :=
    (hpa.map Prod.fst).nodup_iff.mpr hnd
  have hlt : (sortFields a).Pairwise (fun x y => x.1 < y.1) := by
    have h1 : (sortFields a).Pairwise keyLE := sortFields_sorted a
    have h2 : (sortFields a).Pairwise (fun x y => x.1 ≠ y.1) :=
      List.pairwise_map.mp hndA
    exact (h1.and h2).imp (fun h => lt_of_le_of_ne h.1 h.2)
  have hltB : (sortFields b).Pairwise (fun x y => x.1 < y.1) := by
    have hndB : ((sortFields b).map Prod.fst).Nodup := by
      refine (hpb.map Prod.fst).nodup_iff.mpr ?_
      exact ((hperm.map Prod.fst).nodup_iff).mp hnd
    have h1 : (sortFields b).Pairwise keyLE := sortFields_sorted b
    have h2 : (sortFields b).Pairwise (fun x y => x.1 ≠ y.1) :=
      List.pairwise_map.mp hndB
    exact (h1.and h2).imp (fun h => lt_of_le_of_ne h.1 h.2)
  haveI : IsAntisymm (String × Json) (fun x y => x.1 < y.1) := by
    constructor
    intro x y hxy hyx
    exact absurd (lt_trans hxy hyx) (lt_irrefl _)
  exact List.eq_of_perm_of_sorted hab hlt hltB

theorem canonList_congr (xs ys : List Json)
    (hlen : xs.length = ys.length)
    (h : ∀ p ∈ xs.zip ys, canonicalizeProperties p.1 = canonicalizeProperties p.2) :
    canonList xs = canonList ys := by
  induction xs generalizing ys with
  | nil =>
    cases ys with
    | nil => rfl
    | cons y ys => simp at hlen
  | cons x xs ih =>
    cases ys with
    | nil => simp at hlen
    | cons y ys =>
      simp only [canonList]
      refine congrArg₂ _ ?_ ?_
      · exact h (x, y) (by simp [List.zip_cons_cons])
      · refine ih ys (by simpa using hlen) ?_
        intro p hp
        exact h p (by simp [List.zip_cons_cons, hp])

theorem canonFields_congr (fs gs : List (String × Json))
    (hlen : fs.length = gs.length)
    (hk : ∀ p ∈ fs.zip gs, p.1.1 = p.2.1)
    (hv : ∀ p ∈ fs.zip gs, canonicalizeProperties p.1.2 = canonicalizeProperties p.2.2) :
    canonFields fs = canonFields gs := by
  induction fs generalizing gs with
  | nil =>
    cases gs with
    | nil => rfl
    | cons g gs => simp at hlen
  | cons f fs ih =>
    cases gs with
    | nil => simp at hlen
    | cons g gs =>
      obtain ⟨k, v⟩ := f
      obtain ⟨k', w⟩ := g
      simp only [canonFields]
      have hkk : k = k' := hk ((k, v), (k', w)) (by simp [List.zip_cons_cons])
      have hvv : canonicalizeProperties v = canonicalizeProperties w :=
        hv ((k, v), (k', w)) (by simp [List.zip_cons_cons])
      rw [hkk, hvv]
      refine congrArg _ (ih gs (by simpa using hlen) ?_ ?_)
      · intro p hp; exact hk p (by simp [List.zip_cons_cons, hp])
      · intro p hp; exact hv p (by simp [List.zip_cons_cons, hp])

theorem canonFields_map_fst (fs : List (String × Json)) :
    (canonFields fs).map Prod.fst = fs.map Prod.fst := by
  induction fs with
  | nil => rfl
  | cons f fs ih =>
    obtain ⟨k, v⟩ := f
    simp [canonFields, ih]

theorem canonFields_eq_map (gs : List (String × Json)) :
    canonFields gs = gs.map (fun p => (p.1, canonicalizeProperties p.2)) := by
  induction gs with
  | nil => rfl
  | cons g gs ih =>
    obtain ⟨k, v⟩ := g
    simp [canonFields, ih]

theorem canonFields_perm (gs hs : List (String × Json)) (h : gs.Perm hs) :
    (canonFields gs).Perm (canonFields hs) := by
  rw [canonFields_eq_map, canonFields_eq_map]
  exact h.map _

theorem wfList_mem (xs : List Json) (h : wfList xs = true) :
    ∀ x ∈ xs, wfJson x = true := by
  induction xs with
  | nil => intro x hx; cases hx
  | cons y ys ih =>
    intro x hx
    simp only [wfList, Bool.and_eq_true] at h
    rcases List.mem_cons.mp hx with hx | hx
    · subst hx; exact h.1
    · exact ih h.2 x hx

theorem wfFields_mem (fs : List (String × Json)) (h : wfFields fs = true) :
    ∀ p ∈ fs, wfJson p.2 = true := by
  induction fs with
  | nil => intro p hp; cases hp
  | cons g gs ih =>
    obtain ⟨k, v⟩ := g
    intro p hp
    simp only [wfFields, Bool.and_eq_true] at h
    rcases List.mem_cons.mp hp with hp | hp
    · subst hp; exact h.1
    · exact ih h.2 p hp

/-- Canonicalization is invariant under key reordering at any depth
(on values with no duplicate object keys). -/
theorem canonicalize_eq_of_keyReorder (x y : Json)
    (h : KeyReorder x y) (hwf : wfJson x = true) :
    canonicalizeProperties x = canonicalizeProperties y := by
  induction h with
  | null => rfl
  | bool b => rfl
  | num n => rfl
  | str s => rfl
  | arr xs ys hlen hmem ih =>
    simp only [canonicalizeProperties]
    refine congrArg _ (canonList_congr xs ys hlen ?_)
    intro p hp
    have hx : p.1 ∈ xs := (List.of_mem_zip hp).1
    exact ih p hp (wfList_mem xs (by simpa [wfJson] using hwf) p.1 hx)
  | obj fs gs hs hlen hk hv hperm ih =>
    simp only [canonicalizeProperties]
    simp only [wfJson, Bool.and_eq_true] at hwf
    have h1 : canonFields fs = canonFields gs := by
      refine canonFields_congr fs gs hlen hk ?_
      intro p hp
      have hx : p.1 ∈ fs := (List.of_mem_zip hp).1
      exact ih p hp (wfFields_mem fs hwf.2 p.1 hx)
    have h2 : (canonFields gs).Perm (canonFields hs) := canonFields_perm gs hs hperm
    have hnd : ((canonFields fs).map Prod.fst).Nodup := by
      rw [canonFields_map_fst]
      exact (keysNodupB_iff _).mp hwf.1
    rw [h1]
    refine congrArg _ (sortFields_eq_of_perm _ _ h2 ?_)
    rw [h1] at hnd
    exact hnd

/-! ### `JSON.stringify` model (compact serialization) -/

theorem digitChar_isDigit : ∀ k, k < 10 → isDigitCh (digitChar k) = true := by
  decide

theorem digitChar_toNat : ∀ k, k < 10 → (digitChar k).toNat = 48 + k := by
  decide

theorem natCharsAux_append (n : Nat) :
    ∀ acc, natCharsAux n acc = natCharsAux n [] ++ acc := by
  induction n using Nat.strong_induction_on with
  | _ n ih =>
    intro acc
    by_cases h : n < 10
    · rw [natCharsAux, if_pos h, natCharsAux, if_pos h]
      rfl
    · rw [natCharsAux, if_neg h]
      conv_rhs => rw [natCharsAux, if_neg h]
      have hlt : n / 10 < n := Nat.div_lt_self (by omega) (by omega)
      rw [ih (n / 10) hlt (digitChar (n % 10) :: acc),
        ih (n / 10) hlt [digitChar (n % 10)]]
      simp

theorem natCharsAux_ne_nil (n : Nat) : natCharsAux n [] ≠ [] := by
  by_cases h : n < 10
  · rw [natCharsAux, if_pos h]; simp
  · rw [natCharsAux, if_neg h, natCharsAux_append]
    simp

theorem natCharsAux_digits (n : Nat) :
    ∀ c ∈ natCharsAux n [], isDigitCh c = true := by
  induction n using Nat.strong_induction_on with
  | _ n ih =>
    intro c hc
    by_cases h : n < 10
    · rw [natCharsAux, if_pos h] at hc
      rcases List.mem_singleton.mp hc with rfl
      exact digitChar_isDigit n h
    · rw [natCharsAux, if_neg h, natCharsAux_append] at hc
      rcases List.mem_append.mp hc with hc | hc
      · exact ih (n / 10) (Nat.div_lt_self (by omega) (by omega)) c hc
      · rcases List.mem_singleton.mp hc with rfl
        exact digitChar_isDigit _ (Nat.mod_lt _ (by omega))

theorem digitsVal_append (xs ys : List Char) :
    digitsVal (xs ++ ys) = ys.foldl (fun a c => a * 10 + (c.toNat - 48)) (digitsVal xs) := by
  simp [digitsVal, List.foldl_append]

theorem digitsVal_natCharsAux (n : Nat) : digitsVal (natCharsAux n []) = n := by
  induction n using Nat.strong_induction_on with
  | _ n ih =>
    by_cases h : n < 10
    · rw [natCharsAux, if_pos h]
      simp [digitsVal, digitChar_toNat n h]
    · rw [natCharsAux, if_neg h, natCharsAux_append, digitsVal_append,
        ih (n / 10) (Nat.div_lt_self (by omega) (by omega))]
      simp only [List.foldl_cons, List.foldl_nil]
      rw [digitChar_toNat _ (Nat.mod_lt _ (by omega))]
      omega

theorem takeDigits_of_digits (ds : List Char) (r : List Char)
    (hds : ∀ c ∈ ds, isDigitCh c = true) (hr : headNotDigit r = true) :
    takeDigits (ds ++ r) = (ds, r) := by
  induction ds with
  | nil =>
    cases r with
    | nil => rfl
    | cons c rs =>
      simp only [headNotDigit, Bool.not_eq_true'] at hr
      simp [takeDigits, hr]
  | cons d ds ih =>
    have hd : isDigitCh d = true := hds d (by simp)
    have ihr : takeDigits (ds ++ r) = (ds, r) := ih (fun c hc => hds c (by simp [hc]))
    simp only [List.cons_append, takeDigits, hd, if_pos]
    rw [show ds.append r = ds ++ r from rfl, ihr]

theorem parseNatL_natCharsAux (n : Nat) (r : List Char) (hr : headNotDigit r = true) :
    parseNatL (natCharsAux n [] ++ r) = some (n, r) := by
  rw [parseNatL, takeDigits_of_digits _ r (natCharsAux_digits n) hr]
  simp only [List.isEmpty_iff]
  rw [if_neg (natCharsAux_ne_nil n)]
  rw [digitsVal_natCharsAux]

theorem parseStrAux_roundtrip (cs : List Char) :
    ∀ acc r, parseStrAux acc (escJsonStr cs ++ '"' :: r) = some (⟨acc.reverse ++ cs⟩, r) := by
  induction cs with
  | nil =>
    intro acc r
    simp only [escJsonStr, List.flatMap_nil, List.nil_append]
    simp [parseStrAux]
  | cons c cs ih =>
    intro acc r
    have hstep : escJsonStr (c :: cs) = escJsonChar c ++ escJsonStr cs := by
      simp [escJsonStr]
    by_cases hesc : c = '"' ∨ c = '\\'
    · rw [hstep, escJsonChar, if_pos hesc]
      simp only [List.cons_append, List.nil_append, List.append_assoc]
      rw [show parseStrAux acc ('\\' :: c :: (escJsonStr cs ++ '"' :: r))
          = parseStrAux (c :: acc) (escJsonStr cs ++ '"' :: r) by simp [parseStrAux]]
      rw [ih (c :: acc) r]
      simp
    · rw [hstep, escJsonChar, if_neg hesc]
      push_neg at hesc
      simp only [List.cons_append, List.singleton_append, List.nil_append]
      rw [show parseStrAux acc (c :: (escJsonStr cs ++ '"' :: r))
          = parseStrAux (c :: acc) (escJsonStr cs ++ '"' :: r) by
        simp [parseStrAux, hesc.1, hesc.2]]
      rw [ih (c :: acc) r]
      simp

theorem renderStrL_parse (s : String) (r : List Char) :
    parseStrAux [] (escJsonStr s.data ++ '"' :: r) = some (s, r) := by
  rw [parseStrAux_roundtrip s.data [] r]
  simp

theorem jsize_pos (v : Json) : 1 ≤ jsize v := by
  cases v <;> simp [jsize]

theorem jsizeL_pos (xs : List Json) : 1 ≤ jsizeL xs := by
  cases xs <;> simp [jsizeL]

theorem jsizeF_pos (fs : List (String × Json)) : 1 ≤ jsizeF fs := by
  cases fs with
  | nil => simp [jsizeF]
  | cons f fs => obtain ⟨k, v⟩ := f; simp [jsizeF]

theorem natCharsAux_shape (n : Nat) :
    ∃ c t, natCharsAux n [] = c :: t ∧ isDigitCh c = true := by
  cases h : natCharsAux n [] with
  | nil => exact absurd h (natCharsAux_ne_nil n)
  | cons c t =>
    exact ⟨c, t, rfl, natCharsAux_digits n c (by rw [h]; simp)⟩

theorem renderJson_shape (v : Json) :
    ∃ c t, renderJson v = c :: t ∧ c ≠ ']' ∧ c ≠ '}' := by
  cases v with
  | null => exact ⟨'n', _, rfl, by decide, by decide⟩
  | bool b => cases b
              · exact ⟨'f', _, rfl, by decide, by decide⟩
              · exact ⟨'t', _, rfl, by decide, by decide⟩
  | num n =>
    by_cases hneg : n < 0
    · refine ⟨'-', natCharsAux n.natAbs [], ?_, by decide, by decide⟩
      simp [renderJson, intChars, hneg]
    · obtain ⟨c, t, hct, hcd⟩ := natCharsAux_shape n.toNat
      refine ⟨c, t, ?_, ?_, ?_⟩
      · simp [renderJson, intChars, hneg, hct]
      · intro h; rw [h] at hcd; exact absurd hcd (by decide)
      · intro h; rw [h] at hcd; exact absurd hcd (by decide)
  | str s => exact ⟨'"', _, rfl, by decide, by decide⟩
  | arr xs => exact ⟨'[', _, rfl, by decide, by decide⟩
  | obj fs => exact ⟨'{', _, rfl, by decide, by decide⟩

theorem parse_render_roundtrip : ∀ fuel,
    (∀ v r, jsize v ≤ fuel → headNotDigit r = true →
      parseVal fuel (renderJson v ++ r) = some (v, r))
  ∧ (∀ xs r, xs ≠ [] → jsizeL xs ≤ fuel →
      parseElemsP fuel (renderElems xs ++ ']' :: r) = some (xs, r))
  ∧ (∀ fs r, fs ≠ [] → jsizeF fs ≤ fuel →
      parseMembersP fuel (renderMembers fs ++ '}' :: r) = some (fs, r)) := by
  intro fuel
  induction fuel using Nat.strong_induction_on with
  | _ fuel ih =>
    refine ⟨?_, ?_, ?_⟩
    · -- parseVal
      intro v r hsz hr
      cases fuel with
      | zero => exact absurd hsz (by have := jsize_pos v; omega)
      | succ fuel =>
        cases v with
        | null => simp [renderJson, parseVal, parseNullTail]
        | bool b => cases b <;> simp [renderJson, parseVal, parseTrueTail, parseFalseTail]
        | num n =>
          by_cases hneg : n < 0
          · rw [show renderJson (.num n) = '-' :: natCharsAux n.natAbs [] by
              simp [renderJson, intChars, hneg]]
            rw [List.cons_append]
            simp only [parseVal]
            rw [if_neg (by decide), if_neg (by decide), if_neg (by decide),
              if_neg (by decide), if_neg (by decide), if_neg (by decide), if_pos trivial]
            rw [parseNatL_natCharsAux _ r hr]
            have hcast : (-(n.natAbs : Int)) = n := by omega
            have habs : -|n| = n := by rw [abs_of_neg hneg]; ring
            simp [hcast, habs]
          · obtain ⟨c, t, hct, hcd⟩ := natCharsAux_shape n.toNat
            rw [show renderJson (.num n) = natCharsAux n.toNat [] by
              simp [renderJson, intChars, hneg]]
            rw [hct, List.cons_append]
            have hne : ∀ d : Char, isDigitCh d = false → c ≠ d := by
              intro d hd h; rw [h] at hcd; rw [hcd] at hd; cases hd
            simp only [parseVal]
            rw [if_neg (hne 'n' (by decide)), if_neg (hne 't' (by decide)),
              if_neg (hne 'f' (by decide)), if_neg (hne '"' (by decide)),
              if_neg (hne '[' (by decide)), if_neg (hne '{' (by decide)),
              if_neg (hne '-' (by decide)), if_pos hcd]
            rw [show (c :: (t ++ r)) = (c :: t) ++ r from rfl, ← hct]
            rw [parseNatL_natCharsAux _ r hr]
            have : ((n.toNat : Int)) = n := by omega
            simp [this]
        | str s =>
          rw [show renderJson (.str s) ++ r
              = '"' :: (escJsonStr s.data ++ '"' :: r) by
            simp [renderJson, renderStrL]]
          simp only [parseVal]
          rw [if_neg (by decide), if_neg (by decide), if_neg (by decide), if_pos trivial]
          rw [renderStrL_parse s r]
        | arr xs =>
          rw [show renderJson (.arr xs) ++ r
              = '[' :: (renderElems xs ++ ']' :: r) by
            simp [renderJson]]
          simp only [parseVal]
          rw [if_neg (by decide), if_neg (by decide), if_neg (by decide),
            if_neg (by decide), if_pos trivial]
          cases xs with
          | nil => simp [renderElems, parseElemsTop]
          | cons x t =>
            obtain ⟨c, ct, hct, hc1, hc2⟩ := renderJson_shape x
            have hre : ∃ tail, renderElems (x :: t) = renderJson x ++ tail := by
              cases t with
              | nil => exact ⟨[], by simp [renderElems]⟩
              | cons y t' => exact ⟨',' :: renderElems (y :: t'), rfl⟩
            obtain ⟨tail, htail⟩ := hre
            have hscrut : renderElems (x :: t) ++ ']' :: r
                = c :: (ct ++ tail ++ ']' :: r) := by
              rw [htail, hct]; simp
            rw [hscrut]
            rw [show parseElemsTop fuel (c :: (ct ++ tail ++ ']' :: r))
                = match parseElemsP fuel (c :: (ct ++ tail ++ ']' :: r)) with
                  | some (xs, r') => some (.arr xs, r')
                  | none => none by simp [parseElemsTop, hc1]]
            rw [← hscrut]
            have hE := (ih fuel (by omega)).2.1 (x :: t) r (by simp) (by
              simp only [jsize] at hsz; omega)
            rw [hE]
        | obj fs =>
          rw [show renderJson (.obj fs) ++ r
              = '{' :: (renderMembers fs ++ '}' :: r) by
            simp [renderJson]]
          simp only [parseVal]
          rw [if_neg (by decide), if_neg (by decide), if_neg (by decide),
            if_neg (by decide), if_neg (by decide), if_pos trivial]
          cases fs with
          | nil => simp [renderMembers, parseMembersTop]
          | cons f t =>
            obtain ⟨k, v⟩ := f
            have hre : ∃ tail, renderMembers ((k, v) :: t)
                = '"' :: (escJsonStr k.data ++ '"' :: (':' :: (renderJson v ++ tail))) := by
              cases t with
              | nil =>
                refine ⟨[], ?_⟩
                simp [renderMembers, renderStrL]
              | cons q t' =>
                refine ⟨',' :: renderMembers (q :: t'), ?_⟩
                simp [renderMembers, renderStrL]
            obtain ⟨tail, htail⟩ := hre
            have hscrut : renderMembers ((k, v) :: t) ++ '}' :: r
                = '"' :: (escJsonStr k.data ++ '"' :: (':' :: (renderJson v ++ tail)) ++ '}' :: r) := by
              rw [htail]; simp
            rw [hscrut]
            rw [show parseMembersTop fuel
                ('"' :: (escJsonStr k.data ++ '"' :: (':' :: (renderJson v ++ tail)) ++ '}' :: r))
                = match parseMembersP fuel
                    ('"' :: (escJsonStr k.data ++ '"' :: (':' :: (renderJson v ++ tail)) ++ '}' :: r)) with
                  | some (fs, r') => some (.obj fs, r')
                  | none => none by simp [parseMembersTop]]
            rw [show ('"' :: (escJsonStr k.data ++ '"' :: (':' :: (renderJson v ++ tail)) ++ '}' :: r))
                = renderMembers ((k, v) :: t) ++ '}' :: r by rw [hscrut]]
            have hM := (ih fuel (by omega)).2.2 ((k, v) :: t) r (by simp) (by
              simp only [jsize] at hsz; omega)
            rw [hM]
    · -- parseElemsP
      intro xs r hne hsz
      cases fuel with
      | zero =>
        exact absurd hsz (by have := jsizeL_pos xs; omega)
      | succ fuel =>
        cases xs with
        | nil => exact absurd rfl hne
        | cons x t =>
          have hszx : jsize x ≤ fuel := by
            have h1 := jsizeL_pos t
            simp only [jsizeL] at hsz; omega
          cases t with
          | nil =>
            rw [show renderElems [x] ++ ']' :: r = renderJson x ++ ']' :: r by
              simp [renderElems]]
            simp only [parseElemsP]
            rw [(ih fuel (by omega)).1 x (']' :: r) hszx (by rfl)]
            rfl
          | cons y t' =>
            rw [show renderElems (x :: y :: t') ++ ']' :: r
                = renderJson x ++ ',' :: (renderElems (y :: t') ++ ']' :: r) by
              simp [renderElems]]
            simp only [parseElemsP]
            rw [(ih fuel (by omega)).1 x _ hszx (by rfl)]
            have hE := (ih fuel (by omega)).2.1 (y :: t') r (by simp) (by
              simp only [jsizeL] at hsz ⊢; omega)
            refine Eq.trans (show _
                = (match parseElemsP fuel (renderElems (y :: t') ++ ']' :: r) with
                  | some (vs, r'') => some (x :: vs, r'')
                  | none => none) from rfl) ?_
            rw [hE]
    · -- parseMembersP
      intro fs r hne hsz
      cases fuel with
      | zero =>
        exact absurd hsz (by have := jsizeF_pos fs; omega)
      | succ fuel =>
        cases fs with
        | nil => exact absurd rfl hne
        | cons f t =>
          obtain ⟨k, v⟩ := f
          have hszv : jsize v ≤ fuel := by
            have h1 := jsizeF_pos t
            simp only [jsizeF] at hsz; omega
          cases t with
          | nil =>
            rw [show renderMembers [(k, v)] ++ '}' :: r
                = '"' :: (escJsonStr k.data ++ '"' :: (':' :: (renderJson v ++ '}' :: r))) by
              simp [renderMembers, renderStrL]]
            simp only [parseMembersP]
            rw [parseStrAux_roundtrip k.data [] (':' :: (renderJson v ++ '}' :: r))]
            simp only [List.reverse_nil, List.nil_append]
            rw [(ih fuel (by omega)).1 v ('}' :: r) hszv (by rfl)]
            rfl
          | cons q t' =>
            rw [show renderMembers ((k, v) :: q :: t') ++ '}' :: r
                = '"' :: (escJsonStr k.data ++ '"' ::
                    (':' :: (renderJson v ++ ',' :: (renderMembers (q :: t') ++ '}' :: r)))) by
              simp [renderMembers, renderStrL]]
            simp only [parseMembersP]
            rw [parseStrAux_roundtrip k.data []
              (':' :: (renderJson v ++ ',' :: (renderMembers (q :: t') ++ '}' :: r)))]
            simp only [List.reverse_nil, List.nil_append]
            rw [(ih fuel (by omega)).1 v _ hszv (by rfl)]
            have hM := (ih fuel (by omega)).2.2 ((q :: t')) r (by simp) (by
              simp only [jsizeF] at hsz ⊢; omega)
            refine Eq.trans (show _
                = (match parseMembersP fuel (renderMembers (q :: t') ++ '}' :: r) with
                  | some (fs, r₅) => some ((k, v) :: fs, r₅)
                  | none => none) from rfl) ?_
            rw [hM]

/-- The compact serialization is injective. -/
theorem renderJson_injective (x y : Json) (h : renderJson x = renderJson y) : x = y := by
  have hx := (parse_render_roundtrip (max (jsize x) (jsize y))).1 x []
    (le_max_left _ _) rfl
  have hy := (parse_render_roundtrip (max (jsize x) (jsize y))).1 y []
    (le_max_right _ _) rfl
  rw [List.append_nil] at hx hy
  rw [h, hy] at hx
  injection hx with hx
  exact (congrArg Prod.fst hx).symm

theorem jsonStringify_injective (x y : Json) (h : jsonStringify x = jsonStringify y) :
    x = y := by
  exact renderJson_injective x y (congrArg String.data h)

theorem canonicalize_prim (x : Json) (h : isPrim x = true) :
    canonicalizeProperties x = x := by
  cases x with
  | null => rfl
  | bool b => rfl
  | num n => rfl
  | str s => rfl
  | arr xs => cases h
  | obj fs => cases h

theorem nodup_perm_same_keys_eq :
    ∀ (a b : List (String × Json)), a.Perm b → a.map Prod.fst = b.map Prod.fst →
      (a.map Prod.fst).Nodup → a = b := by
  intro a
  induction a with
  | nil =>
    intro b hperm _ _
    exact (hperm.nil_eq).symm ▸ rfl
  | cons p a' ih =>
    intro b hperm hkeys hnd
    obtain ⟨k, v⟩ := p
    cases b with
    | nil => exact absurd hperm.length_eq (by simp)
    | cons q b' =>
      obtain ⟨k2, w⟩ := q
      have hk : k = k2 := by
        simpa using congrArg List.head? hkeys
      subst hk
      have hvw : v = w := by
        have hmem : (k, v) ∈ (k, w) :: b' := hperm.subset (by simp)
        rcases List.mem_cons.mp hmem with heq | hmem'
        · exact (Prod.mk.injEq _ _ _ _ ▸ heq).2
        · exfalso
          have hk_in : k ∈ b'.map Prod.fst := List.mem_map.mpr ⟨(k, v), hmem', rfl⟩
          have hkeys' : a'.map Prod.fst = b'.map Prod.fst := by
            simpa using congrArg List.tail hkeys
          have hnotin : k ∉ a'.map Prod.fst := by
            simp only [List.map_cons, List.nodup_cons] at hnd
            exact hnd.1
          rw [hkeys'] at hnotin
          exact hnotin hk_in
      subst hvw
      have hperm' : a'.Perm b' := hperm.cons_inv
      have hkeys' : a'.map Prod.fst = b'.map Prod.fst := by
        simpa using congrArg List.tail hkeys
      have hnd' : (a'.map Prod.fst).Nodup := by
        simp only [List.map_cons, List.nodup_cons] at hnd
        exact hnd.2
      rw [ih b' hperm' hkeys' hnd']

theorem sortFields_inj_same_keys (a b : List (String × Json))
    (h : sortFields a = sortFields b) (hkeys : a.map Prod.fst = b.map Prod.fst)
    (hnd : (a.map Prod.fst).Nodup) : a = b := by
  have hperm : a.Perm b :=
    ((sortFields_perm a).symm.trans (h ▸ sortFields_perm b))
  exact nodup_perm_same_keys_eq a b hperm hkeys hnd

theorem map_fst_eq_of_zip (fs gs : List (String × Json))
    (hlen : fs.length = gs.length)
    (hk : ∀ p ∈ fs.zip gs, p.1.1 = p.2.1) :
    fs.map Prod.fst = gs.map Prod.fst := by
  induction fs generalizing gs with
  | nil => cases gs with
    | nil => rfl
    | cons g gs => simp at hlen
  | cons f fs ih =>
    cases gs with
    | nil => simp at hlen
    | cons g gs =>
      simp only [List.map_cons]
      rw [hk (f, g) (by simp [List.zip_cons_cons])]
      rw [ih gs (by simpa using hlen) (fun p hp => hk p (by simp [List.zip_cons_cons, hp]))]

theorem canonList_inj (xs : List Json) :
    ∀ ys, xs.length = ys.length →
      (∀ p ∈ xs.zip ys, wfJson p.1 = true →
        canonicalizeProperties p.1 = canonicalizeProperties p.2 → p.1 = p.2) →
      wfList xs = true → canonList xs = canonList ys → xs = ys := by
  induction xs with
  | nil =>
    intro ys hlen _ _ _
    cases ys with
    | nil => rfl
    | cons y ys => simp at hlen
  | cons x xs ih =>
    intro ys hlen hpt hwf hc
    cases ys with
    | nil => simp at hlen
    | cons y ys =>
      simp only [canonList] at hc
      injection hc with h1 h2
      simp only [wfList, Bool.and_eq_true] at hwf
      have hxy : x = y := hpt (x, y) (by simp [List.zip_cons_cons]) hwf.1 h1
      rw [hxy, ih ys (by simpa using hlen)
        (fun p hp => hpt p (by simp [List.zip_cons_cons, hp])) hwf.2 h2]

theorem canonFields_inj (fs : List (String × Json)) :
    ∀ gs, fs.length = gs.length →
      (∀ p ∈ fs.zip gs, wfJson p.1.2 = true →
        canonicalizeProperties p.1.2 = canonicalizeProperties p.2.2 → p.1.2 = p.2.2) →
      wfFields fs = true → canonFields fs = canonFields gs → fs = gs := by
  induction fs with
  | nil =>
    intro gs hlen _ _ _
    cases gs with
    | nil => rfl
    | cons g gs => simp at hlen
  | cons f fs ih =>
    intro gs hlen hpt hwf hc
    cases gs with
    | nil => simp at hlen
    | cons g gs =>
      obtain ⟨k, v⟩ := f
      obtain ⟨k2, w⟩ := g
      simp only [canonFields] at hc
      injection hc with h1 h2
      injection h1 with h1k h1v
      simp only [wfFields, Bool.and_eq_true] at hwf
      have hvw : v = w := hpt ((k, v), (k2, w)) (by simp [List.zip_cons_cons]) hwf.1 h1v
      rw [h1k, hvw, ih gs (by simpa using hlen)
        (fun p hp => hpt p (by simp [List.zip_cons_cons, hp])) hwf.2 h2]

/-- On same-shape well-formed values, canonicalization is injective:
changing any leaf value changes the canonical form. -/
theorem canonicalize_inj_of_sameShape (x y : Json)
    (hs : SameShape x y) (hwf : wfJson x = true)
    (h : canonicalizeProperties x = canonicalizeProperties y) : x = y := by
  induction hs with
  | prim x y hx hy =>
    rwa [canonicalize_prim x hx, canonicalize_prim y hy] at h
  | arr xs ys hlen hmem ih =>
    simp only [canonicalizeProperties, Json.arr.injEq] at h
    exact congrArg Json.arr
      (canonList_inj xs ys hlen (fun p hp => ih p hp) (by simpa [wfJson] using hwf) h)
  | obj fs gs hlen hk hv ih =>
    simp only [canonicalizeProperties, Json.obj.injEq] at h
    simp only [wfJson, Bool.and_eq_true] at hwf
    have hkeq : fs.map Prod.fst = gs.map Prod.fst := map_fst_eq_of_zip fs gs hlen hk
    have hnd : ((canonFields fs).map Prod.fst).Nodup := by
      rw [canonFields_map_fst]
      exact (keysNodupB_iff _).mp hwf.1
    have hcf : canonFields fs = canonFields gs := by
      refine sortFields_inj_same_keys _ _ h ?_ hnd
      rw [canonFields_map_fst, canonFields_map_fst]
      exact hkeq
    exact congrArg Json.obj
      (canonFields_inj fs gs hlen (fun p hp => ih p hp) hwf.2 hcf)

/-- C9: the search-query escaping is injective and reversible — escaping
replaces each backslash with two backslashes first and then each double
quote with backslash-quote, and the reverse rewriting recovers exactly
the original logical id. -/
theorem claim_C9_escape_search_query :
    (∀ id : String, unescapeSearchQuery (escapeSearchQuery id) = id)
  ∧ (∀ a b : String, escapeSearchQuery a = escapeSearchQuery b → a = b) :=
  ⟨escapeSearchQuery_roundtrip, escapeSearchQuery_injective⟩

/-- Witness for C9 at a concrete id containing both a quote and a
backslash. -/
theorem claim_C9_escape_search_query_witness :
    unescapeSearchQuery (escapeSearchQuery "a\"b\\c") = "a\"b\\c"
  ∧ ("x\\" : String) = "x\\" :=
  ⟨claim_C9_escape_search_query.1 "a\"b\\c",
   claim_C9_escape_search_query.2 "x\\" "x\\" rfl⟩

/-- C5: `computePropertiesHash` is invariant under reordering of object
keys at any nesting depth (arrays keep element order), so two
structurally-equal bags hash to the same digest; and the digest input
(the canonical serialization) changes whenever any leaf value changes —
distinct canonical forms always serialize differently.  The sha256 step
is the external crypto library, modelled as an arbitrary digest
function, so the first part holds for every digest function and the
leaf-change part is stated of the digest's input. -/
theorem claim_C5_properties_hash :
    (∀ (digest : String → String) (x y : Json), wfJson x = true → KeyReorder x y →
      computePropertiesHash digest x = computePropertiesHash digest y)
  ∧ (∀ x y : Json,
      jsonStringify (canonicalizeProperties x) = jsonStringify (canonicalizeProperties y) →
      canonicalizeProperties x = canonicalizeProperties y)
  ∧ (∀ x y : Json, wfJson x = true → SameShape x y → x ≠ y →
      jsonStringify (canonicalizeProperties x) ≠ jsonStringify (canonicalizeProperties y)) := by
  refine ⟨?_, ?_, ?_⟩
  · intro digest x y hwf hr
    unfold computePropertiesHash
    rw [canonicalize_eq_of_keyReorder x y hr hwf]
  · intro x y h
    exact jsonStringify_injective _ _ h
  · intro x y hwf hs hne h
    exact hne (canonicalize_inj_of_sameShape x y hs hwf (jsonStringify_injective _ _ h))

/-- Witness for C5: a nested bag with reordered keys hashes identically,
and a single changed leaf changes the digest input. -/
theorem claim_C5_properties_hash_witness :
    computePropertiesHash (fun s => s)
        (.obj [("b", .num 2), ("a", .obj [("y", .num 1), ("x", .str "s")])])
      = computePropertiesHash (fun s => s)
        (.obj [("a", .obj [("x", .str "s"), ("y", .num 1)]), ("b", .num 2)])
  ∧ canonicalizeProperties (.obj [("a", .num 1)]) = canonicalizeProperties (.obj [("a", .num 1)])
  ∧ jsonStringify (canonicalizeProperties (.obj [("a", .num 1)]))
      ≠ jsonStringify (canonicalizeProperties (.obj [("a", .num 2)])) := by
  refine ⟨?_, ?_, ?_⟩
  · refine claim_C5_properties_hash.1 (fun s => s) _ _ (by rfl) ?_
    refine KeyReorder.obj
      [("b", .num 2), ("a", .obj [("y", .num 1), ("x", .str "s")])]
      [("b", .num 2), ("a", .obj [("x", .str "s"), ("y", .num 1)])]
      [("a", .obj [("x", .str "s"), ("y", .num 1)]), ("b", .num 2)]
      rfl ?_ ?_ ?_
    · intro p hp
      simp only [List.zip_cons_cons, List.zip_nil_right, List.mem_cons,
        List.not_mem_nil, or_false] at hp
      rcases hp with rfl | rfl <;> rfl
    · intro p hp
      simp only [List.zip_cons_cons, List.zip_nil_right, List.mem_cons,
        List.not_mem_nil, or_false] at hp
      rcases hp with rfl | rfl
      · exact .num 2
      · refine KeyReorder.obj
          [("y", .num 1), ("x", .str "s")]
          [("y", .num 1), ("x", .str "s")]
          [("x", .str "s"), ("y", .num 1)]
          rfl ?_ ?_ (List.Perm.swap _ _ _)
        · intro p hp
          simp only [List.zip_cons_cons, List.zip_nil_right, List.mem_cons,
            List.not_mem_nil, or_false] at hp
          rcases hp with rfl | rfl <;> rfl
        · intro p hp
          simp only [List.zip_cons_cons, List.zip_nil_right, List.mem_cons,
            List.not_mem_nil, or_false] at hp
          rcases hp with rfl | rfl
          · exact .num 1
          · exact .str "s"
    · exact List.Perm.swap _ _ _
  · exact claim_C5_properties_hash.2.1 _ _ rfl
  · refine claim_C5_properties_hash.2.2 _ _ (by rfl) ?_ (by simp)
    refine SameShape.obj [("a", .num 1)] [("a", .num 2)] rfl ?_ ?_
    · intro p hp
      simp only [List.zip_cons_cons, List.zip_nil_right, List.mem_cons,
        List.not_mem_nil, or_false] at hp
      rcases hp with rfl; rfl
    · intro p hp
      simp only [List.zip_cons_cons, List.zip_nil_right, List.mem_cons,
        List.not_mem_nil, or_false] at hp
      rcases hp with rfl
      exact SameShape.prim _ _ rfl rfl

/-! ## State store (packages/cli/src/engine/state.ts)

`StateManager.load` reads and parses the state file inside a `try`:
a missing file, a read error, a parse error, a version mismatch, or a
malformed `stacks` field all fall back to the fresh empty state.  The
state value is kept as parsed JSON (`this.state = parsed`); `getResource`
reads `this.state.stacks[stackId]?.resources[logicalId]`. -/

/-- C7: state-store construction never fails because of the on-disk
file — an unreadable, unparsable, or version-mismatched file yields the
fresh empty state instead of raising (`loadState` is total by
construction); and on a freshly empty store, `getResource` returns
`undefined` for every lookup. -/
theorem claim_C7_state_store_recovery :
    loadState .missing = emptyStateJ
  ∧ loadState .readFailure = emptyStateJ
  ∧ loadState .parseFailure = emptyStateJ
  ∧ (∀ j : Json,
      Json.jsStrictEq (Json.jsGet j "version") (some (.num STATE_VERSION)) = false →
      loadState (.parsed j) = emptyStateJ)
  ∧ (∀ j : Json, loadState (.parsed j) = j ∨ loadState (.parsed j) = emptyStateJ)
  ∧ (∀ stackId logicalId : String,
      getResource emptyStateJ stackId logicalId = .ok none) := by
  refine ⟨rfl, rfl, rfl, ?_, ?_, ?_⟩
  · intro j hv
    cases j with
    | null => rfl
    | bool b => simp [loadState, hv]
    | num n => simp [loadState, hv]
    | str s => simp [loadState, hv]
    | arr xs => simp [loadState, hv]
    | obj fs => simp [loadState, hv]
  · intro j
    cases j with
    | null => exact Or.inr rfl
    | bool b =>
      simp only [loadState]
      split
      · exact Or.inl rfl
      · exact Or.inr rfl
    | num n =>
      simp only [loadState]
      split
      · exact Or.inl rfl
      · exact Or.inr rfl
    | str s =>
      simp only [loadState]
      split
      · exact Or.inl rfl
      · exact Or.inr rfl
    | arr xs =>
      simp only [loadState]
      split
      · exact Or.inl rfl
      · exact Or.inr rfl
    | obj fs =>
      simp only [loadState]
      split
      · exact Or.inl rfl
      · exact Or.inr rfl
  · intro stackId logicalId
    simp [getResource, emptyStateJ, Json.jsGet, Json.lookupField, jsIndexThrow,
      STATE_VERSION, bind, Except.bind]

/-- Witness for C7 at concrete inputs: a version-2 file and a corrupted
(non-object) file both load as the empty state, and a lookup on the
empty store yields `undefined`. -/
theorem claim_C7_state_store_recovery_witness :
    loadState (.parsed (.obj [("version", .num 2), ("stacks", .obj [])])) = emptyStateJ
  ∧ loadState .parseFailure = emptyStateJ
  ∧ getResource emptyStateJ "MyStack" "MyProduct" = .ok none :=
  ⟨claim_C7_state_store_recovery.2.2.2.1 _ (by rfl),
   claim_C7_state_store_recovery.2.2.1,
   claim_C7_state_store_recovery.2.2.2.2.2 "MyStack" "MyProduct"⟩

/-! ## Coupon construct (packages/constructs/src/coupon.ts)

The constructor stores the typed fields and then validates, before any
remote call: exactly one of `amountOff`/`percentOff` (XOR),
`durationInMonths` required for `duration === 'repeating'`, `currency`
required when `amountOff` is set.  `synthesizeProperties` renames the
set fields to snake_case and omits unset optionals. -/

/-- C4: coupon construction raises exactly when a validation rule is
violated (both of amountOff/percentOff set, neither set, repeating
without durationInMonths, or amountOff without currency), and
`{duration:'once', percentOff:20}` constructs successfully with the bag
`{duration:'once', percent_off:20}` holding no amount_off/currency. -/
theorem claim_C4_coupon_validation :
    (∀ p : CouponProps, (mkCoupon p).isOk = true ↔
      ¬(p.amountOff.isSome = p.percentOff.isSome
        ∨ (p.duration = "repeating" ∧ p.durationInMonths = none)
        ∨ (p.amountOff.isSome = true ∧ p.currency = none)))
  ∧ (mkCoupon { duration := "once", percentOff := some 20 }).isOk = true
  ∧ couponSynthesizeProperties { duration := "once", percentOff := some 20 }
      = .obj [("duration", .str "once"), ("percent_off", .num 20)]
  ∧ Json.jsGet (couponSynthesizeProperties { duration := "once", percentOff := some 20 })
      "amount_off" = none
  ∧ Json.jsGet (couponSynthesizeProperties { duration := "once", percentOff := some 20 })
      "currency" = none := by
  refine ⟨?_, rfl, rfl, rfl, rfl⟩
  intro p
  have isOkErr : ∀ (e : String), (Except.error e : Except String CouponProps).isOk = false :=
    fun _ => rfl
  have isOkOk : (Except.ok p : Except String CouponProps).isOk = true := rfl
  unfold mkCoupon
  by_cases h1 : p.amountOff.isSome = p.percentOff.isSome
  · rw [if_pos (by simp [h1]), isOkErr]
    simp only [Bool.false_eq_true, false_iff, not_not]
    exact Or.inl h1
  · rw [if_neg (by simp [h1])]
    by_cases h2 : p.duration = "repeating" ∧ p.durationInMonths = none
    · rw [if_pos (by simp [h2.1, Option.isNone_iff_eq_none, h2.2]), isOkErr]
      simp only [Bool.false_eq_true, false_iff, not_not]
      exact Or.inr (Or.inl h2)
    · have h2' : ¬(p.duration == "repeating" && p.durationInMonths.isNone) = true := by
        intro hc
        simp only [Bool.and_eq_true, beq_iff_eq, Option.isNone_iff_eq_none] at hc
        exact h2 hc
      rw [if_neg h2']
      by_cases h3 : p.amountOff.isSome = true ∧ p.currency = none
      · rw [if_pos (by simp [h3.1, Option.isNone_iff_eq_none, h3.2]), isOkErr]
        simp only [Bool.false_eq_true, false_iff, not_not]
        exact Or.inr (Or.inr h3)
      · have h3' : ¬(p.amountOff.isSome && p.currency.isNone) = true := by
          intro hc
          simp only [Bool.and_eq_true, Option.isNone_iff_eq_none] at hc
          exact h3 hc
        rw [if_neg h3', isOkOk]
        simp only [true_iff]
        rintro (h | h | h)
        · exact h1 h
        · exact h2 h
        · exact h3 h

/-- Witness for C4: both-set raises; the percent-only coupon succeeds. -/
theorem claim_C4_coupon_validation_witness :
    (mkCoupon { duration := "once", amountOff := some 500, percentOff := some 10 }).isOk = false
  ∧ (mkCoupon { duration := "once", percentOff := some 20 }).isOk = true := by
  constructor
  · have h := claim_C4_coupon_validation.1
      { duration := "once", amountOff := some 500, percentOff := some 10 }
    rw [Bool.eq_false_iff]
    intro hok
    exact (h.mp hok) (Or.inl rfl)
  · exact claim_C4_coupon_validation.2.1

/-! ## Construct tree (packages/core/src/construct.ts, with the
id validation of the current iteration, and packages/core/src/errors.ts)

```ts
constructor(scope, id) {
  if (id.trim() === '') { throw new Error(EMPTY_LOGICAL_ID_ERROR); }
  this.node = new ConstructNode(this, id, scope);
  if (scope) { scope.node.addChild(this); }
}
addChild(child) {
  const childId = child.node.id;
  const existing = this._children.find((c) => c.node.id === childId);
  if (existing) { throw new Error(DUPLICATE_LOGICAL_ID_ERROR(childId, this.host.node.path)); }
  this._children.push(child);
}
```
The parent's derived `path` (walked from scope pointers) is passed in
explicitly here, since only the error message carries it. -/

/-- C6: construction fails with the empty-identifier error on an
empty/whitespace id, fails with the duplicate-identifier error when the
scope already has a child with that id, succeeds by appending otherwise
— and therefore sibling id uniqueness is an invariant. -/
theorem claim_C6_construct_id_validation :
    (∀ (scope : Option CNode) (sp id : String), trimIsEmpty id = true →
      mkConstruct scope sp id = .error EMPTY_LOGICAL_ID_ERROR)
  ∧ (∀ (p : CNode) (sp : String) (c : CNode),
      c.id ∈ p.children.map CNode.id →
      addChild p sp c = .error (DUPLICATE_LOGICAL_ID_ERROR c.id sp))
  ∧ (∀ (p : CNode) (sp : String) (c : CNode),
      c.id ∉ p.children.map CNode.id →
      addChild p sp c = .ok { p with children := p.children ++ [c] })
  ∧ (∀ (p : CNode) (sp : String) (c p' : CNode),
      addChild p sp c = .ok p' →
      (p.children.map CNode.id).Nodup →
      (p'.children.map CNode.id).Nodup) := by
  refine ⟨?_, ?_, ?_, ?_⟩
  · intro scope sp id h
    simp [mkConstruct, h]
  · intro p sp c hmem
    have hfind : (p.children.find? (fun d => d.id == c.id)).isSome = true := by
      refine List.find?_isSome.mpr ?_
      rcases List.mem_map.mp hmem with ⟨d, hd, hdc⟩
      exact ⟨d, hd, by simp [hdc]⟩
    simp [addChild, hfind]
  · intro p sp c hmem
    have hfind : (p.children.find? (fun d => d.id == c.id)) = none := by
      rw [List.find?_eq_none]
      intro d hd
      simp only [beq_iff_eq]
      intro hdc
      exact hmem (List.mem_map.mpr ⟨d, hd, hdc⟩)
    simp [addChild, hfind]
  · intro p sp c p' hok hnd
    by_cases hfind : (p.children.find? (fun d => d.id == c.id)).isSome
    · simp [addChild, hfind] at hok
    · have hmem : c.id ∉ p.children.map CNode.id := by
        intro hm
        rcases List.mem_map.mp hm with ⟨d, hd, hdc⟩
        exact hfind (List.find?_isSome.mpr ⟨d, hd, by simp [hdc]⟩)
      rw [Option.not_isSome_iff_eq_none] at hfind
      rw [show addChild p sp c = .ok { p with children := p.children ++ [c] } by
        simp [addChild, hfind]] at hok
      injection hok with hok
      subst hok
      simp only [List.map_append, List.map_cons, List.map_nil]
      rw [List.nodup_append]
      refine ⟨hnd, List.nodup_singleton _, ?_⟩
      intro a ha hb
      rcases List.mem_singleton.mp hb with rfl
      exact hmem ha

/-- Witness for C6: a duplicate child is rejected, a fresh child is
appended, and the empty id is rejected. -/
theorem claim_C6_construct_id_validation_witness :
    mkConstruct (some ⟨"Stack", [⟨"P", []⟩]⟩) "Stack" "  "
      = .error EMPTY_LOGICAL_ID_ERROR
  ∧ addChild ⟨"Stack", [⟨"P", []⟩]⟩ "Stack" ⟨"P", []⟩
      = .error (DUPLICATE_LOGICAL_ID_ERROR "P" "Stack")
  ∧ addChild ⟨"Stack", [⟨"P", []⟩]⟩ "Stack" ⟨"Q", []⟩
      = .ok ⟨"Stack", [⟨"P", []⟩, ⟨"Q", []⟩]⟩ :=
  ⟨claim_C6_construct_id_validation.1 (some ⟨"Stack", [⟨"P", []⟩]⟩) "Stack" "  " (by decide),
   claim_C6_construct_id_validation.2.1 ⟨"Stack", [⟨"P", []⟩]⟩ "Stack" ⟨"P", []⟩ (by simp),
   claim_C6_construct_id_validation.2.2.1 ⟨"Stack", [⟨"P", []⟩]⟩ "Stack" ⟨"Q", []⟩ (by simp)⟩

/-! ## StripeDeployer (packages/cli/src/engine/deployer.ts, the
state-manager-aware version) together with the find/normalize helpers of
stripe-utils.ts.

The Stripe SDK is the external collaborator: it is modelled as an
environment `SEnv σ` of stateful operations (`σ` is the opaque remote
state), and every SDK invocation is also recorded in a call trace so
that ordering properties (deactivate-before-create, reverse teardown)
are observable.  Remote objects carry a string id (§6 of the design:
every returned object has at least `{id, ...}`) and otherwise arbitrary
JSON fields. -/

theorem deployGo_spec {σ : Type} (env : SEnv σ) (sid : String) :
    ∀ (rs : List ResourceManifest) (sm : Option Json)
      (tbl : List (String × String)) (acc : DeployResult) (s : MS σ),
      ((deployGo env sid rs sm tbl acc s).1.deployed.length
        + (deployGo env sid rs sm tbl acc s).1.errors.length
        = acc.deployed.length + acc.errors.length + rs.length)
    ∧ (∀ e ∈ (deployGo env sid rs sm tbl acc s).1.errors,
        e ∈ acc.errors ∨ ∃ r ∈ rs, e.id = r.id ∧ e.type = r.type) := by
  intro rs
  induction rs with
  | nil =>
    intro sm tbl acc s
    refine ⟨by simp [deployGo], ?_⟩
    intro e he
    exact Or.inl (by simpa [deployGo] using he)
  | cons r rest ih =>
    intro sm tbl acc s
    rcases hstep : deployResource env sm sid tbl r s with ⟨res, s'⟩
    rcases res with e2 | d
    · -- error branch
      have hunf : deployGo env sid (r :: rest) sm tbl acc s
          = deployGo env sid rest sm tbl
            { acc with errors := acc.errors ++ [⟨r.id, r.type, e2.message⟩] } s' := by
        simp only [deployGo, hstep]
      rw [hunf]
      obtain ⟨hc, he⟩ := ih sm tbl
        { acc with errors := acc.errors ++ [⟨r.id, r.type, e2.message⟩] } s'
      refine ⟨by simp at hc ⊢; omega, ?_⟩
      intro e hmem
      rcases he e hmem with hin | ⟨rr, hrr, hid, hty⟩
      · simp only [List.mem_append, List.mem_singleton] at hin
        rcases hin with hin | rfl
        · exact Or.inl hin
        · exact Or.inr ⟨r, by simp, rfl, rfl⟩
      · exact Or.inr ⟨rr, by simp [hrr], hid, hty⟩
    · -- success branch
      have hunf : deployGo env sid (r :: rest) sm tbl acc s
          = deployGo env sid rest
            (sm.map fun st => setResource st sid r.id
              (mkResourceState r d.physicalId env.now
                (computePropertiesHash env.digest r.properties)))
            (tblSet tbl r.id d.physicalId)
            { acc with deployed := acc.deployed ++ [d] } s' := by
        simp only [deployGo, hstep]
      rw [hunf]
      obtain ⟨hc, he⟩ := ih
        (sm.map fun st => setResource st sid r.id
          (mkResourceState r d.physicalId env.now
            (computePropertiesHash env.digest r.properties)))
        (tblSet tbl r.id d.physicalId)
        { acc with deployed := acc.deployed ++ [d] } s'
      refine ⟨by simp at hc ⊢; omega, ?_⟩
      intro e hmem
      rcases he e hmem with hin | ⟨rr, hrr, hid, hty⟩
      · exact Or.inl hin
      · exact Or.inr ⟨rr, by simp [hrr], hid, hty⟩

theorem destroyGo_spec {σ : Type} (env : SEnv σ) (sid : String) :
    ∀ (rs : List ResourceManifest) (sm : Option Json)
      (acc : DestroyResult) (s : MS σ),
      ((destroyGo env sid rs sm acc s).1.destroyed.length
        + (destroyGo env sid rs sm acc s).1.errors.length
        ≤ acc.destroyed.length + acc.errors.length + rs.length)
    ∧ (∀ e ∈ (destroyGo env sid rs sm acc s).1.errors,
        e ∈ acc.errors ∨ ∃ r ∈ rs, e.id = r.id ∧ e.type = r.type) := by
  intro rs
  induction rs with
  | nil =>
    intro sm acc s
    refine ⟨by simp [destroyGo], ?_⟩
    intro e he
    exact Or.inl (by simpa [destroyGo] using he)
  | cons r rest ih =>
    intro sm acc s
    rcases hstep : destroyResource env sm sid r s with ⟨res, s'⟩
    rcases res with e2 | od
    · have hunf : destroyGo env sid (r :: rest) sm acc s
          = destroyGo env sid rest sm
            { acc with errors := acc.errors ++ [⟨r.id, r.type, e2.message⟩] } s' := by
        simp only [destroyGo, hstep]
      rw [hunf]
      obtain ⟨hc, he⟩ := ih sm
        { acc with errors := acc.errors ++ [⟨r.id, r.type, e2.message⟩] } s'
      refine ⟨by simp at hc ⊢; omega, ?_⟩
      intro e hmem
      rcases he e hmem with hin | ⟨rr, hrr, hid, hty⟩
      · simp only [List.mem_append, List.mem_singleton] at hin
        rcases hin with hin | rfl
        · exact Or.inl hin
        · exact Or.inr ⟨r, by simp, rfl, rfl⟩
      · exact Or.inr ⟨rr, by simp [hrr], hid, hty⟩
    · rcases od with _ | d
      · have hunf : destroyGo env sid (r :: rest) sm acc s
            = destroyGo env sid rest
              (sm.map fun st => removeResource st sid r.id) acc s' := by
          simp only [destroyGo, hstep]
        rw [hunf]
        obtain ⟨hc, he⟩ := ih (sm.map fun st => removeResource st sid r.id) acc s'
        refine ⟨by simp at hc ⊢; omega, ?_⟩
        intro e hmem
        rcases he e hmem with hin | ⟨rr, hrr, hid, hty⟩
        · exact Or.inl hin
        · exact Or.inr ⟨rr, by simp [hrr], hid, hty⟩
      · have hunf : destroyGo env sid (r :: rest) sm acc s
            = destroyGo env sid rest
              (sm.map fun st => removeResource st sid r.id)
              { acc with destroyed := acc.destroyed ++ [d] } s' := by
          simp only [destroyGo, hstep]
        rw [hunf]
        obtain ⟨hc, he⟩ := ih (sm.map fun st => removeResource st sid r.id)
          { acc with destroyed := acc.destroyed ++ [d] } s'
        refine ⟨by simp at hc ⊢; omega, ?_⟩
        intro e hmem
        rcases he e hmem with hin | ⟨rr, hrr, hid, hty⟩
        · exact Or.inl hin
        · exact Or.inr ⟨rr, by simp [hrr], hid, hty⟩

theorem deployProduct_ok_id {σ : Type} (env : SEnv σ) (sm : Option Json)
    (stackId : String) (r : ResourceManifest) (s s' : MS σ) (d : DeployedEntry)
    (h : deployProduct env sm stackId r s = (.ok d, s')) :
    d.id = r.id ∧ d.type = r.type := by
  unfold deployProduct at h
  split at h
  · cases h
  · split at h
    · cases h
    · dsimp only at h
      split at h
      · injection h with h1 _
        injection h1 with h1
        subst h1
        exact ⟨rfl, rfl⟩
      · split at h
        · injection h with h1 _
          injection h1 with h1
          subst h1
          exact ⟨rfl, rfl⟩
        · cases h
    · dsimp only at h
      split at h
      · injection h with h1 _
        injection h1 with h1
        subst h1
        exact ⟨rfl, rfl⟩
      · cases h

theorem deployPriceWith_ok_id {σ : Type} (env : SEnv σ) (sm : Option Json)
    (stackId : String) (r : ResourceManifest) (props : Json) (s s' : MS σ)
    (d : DeployedEntry)
    (h : deployPriceWith env sm stackId r props s = (.ok d, s')) :
    d.id = r.id ∧ d.type = r.type := by
  unfold deployPriceWith at h
  split at h
  · cases h
  · split at h
    · injection h with h1 _
      injection h1 with h1
      subst h1
      exact ⟨rfl, rfl⟩
    · split at h
      · cases h
      · split at h
        · injection h with h1 _
          injection h1 with h1
          subst h1
          exact ⟨rfl, rfl⟩
        · cases h
  · split at h
    · injection h with h1 _
      injection h1 with h1
      subst h1
      exact ⟨rfl, rfl⟩
    · cases h

theorem deployCoupon_ok_id {σ : Type} (env : SEnv σ) (r : ResourceManifest)
    (s s' : MS σ) (d : DeployedEntry)
    (h : deployCoupon env r s = (.ok d, s')) :
    d.id = r.id ∧ d.type = r.type := by
  unfold deployCoupon at h
  split at h
  · cases h
  · injection h with h1 _
    injection h1 with h1
    subst h1
    exact ⟨rfl, rfl⟩
  · split at h
    · injection h with h1 _
      injection h1 with h1
      subst h1
      exact ⟨rfl, rfl⟩
    · cases h

theorem deployEntitlementFeature_ok_id {σ : Type} (env : SEnv σ)
    (r : ResourceManifest) (s s' : MS σ) (d : DeployedEntry)
    (h : deployEntitlementFeature env r s = (.ok d, s')) :
    d.id = r.id ∧ d.type = r.type := by
  unfold deployEntitlementFeature at h
  split at h
  · cases h
  · split at h
    · injection h with h1 _
      injection h1 with h1
      subst h1
      exact ⟨rfl, rfl⟩
    · cases h
  · split at h
    · injection h with h1 _
      injection h1 with h1
      subst h1
      exact ⟨rfl, rfl⟩
    · cases h

theorem deployBillingMeter_ok_id {σ : Type} (env : SEnv σ)
    (r : ResourceManifest) (s s' : MS σ) (d : DeployedEntry)
    (h : deployBillingMeter env r s = (.ok d, s')) :
    d.id = r.id ∧ d.type = r.type := by
  unfold deployBillingMeter at h
  split at h
  · cases h
  · split at h
    · injection h with h1 _
      injection h1 with h1
      subst h1
      exact ⟨rfl, rfl⟩
    · cases h
  · split at h
    · injection h with h1 _
      injection h1 with h1
      subst h1
      exact ⟨rfl, rfl⟩
    · cases h

/-- Every successful per-entry outcome carries the entry's logical id
and kind. -/
theorem deployResource_ok_id {σ : Type} (env : SEnv σ) (sm : Option Json)
    (stackId : String) (tbl : List (String × String)) (r : ResourceManifest)
    (s s' : MS σ) (d : DeployedEntry)
    (h : deployResource env sm stackId tbl r s = (.ok d, s')) :
    d.id = r.id ∧ d.type = r.type := by
  unfold deployResource at h
  split at h
  · exact deployProduct_ok_id env sm stackId r s s' d h
  · split at h
    · exact deployPriceWith_ok_id env sm stackId r _ s s' d h
    · split at h
      · exact deployCoupon_ok_id env r s s' d h
      · split at h
        · exact deployEntitlementFeature_ok_id env r s s' d h
        · split at h
          · exact deployBillingMeter_ok_id env r s s' d h
          · cases h

/-- The deploy loop over a split list factors: run the prefix, then run
the suffix from the prefix's resulting state/table/accumulator. -/
theorem deployGo_append {σ : Type} (env : SEnv σ) (sid : String) :
    ∀ (xs ys : List ResourceManifest) (sm : Option Json)
      (tbl : List (String × String)) (acc : DeployResult) (s : MS σ),
      deployGo env sid (xs ++ ys) sm tbl acc s
        = deployGo env sid ys
            (deployGo env sid xs sm tbl acc s).2.1
            (deployGo env sid xs sm tbl acc s).2.2.1
            (deployGo env sid xs sm tbl acc s).1
            (deployGo env sid xs sm tbl acc s).2.2.2 := by
  intro xs
  induction xs with
  | nil => intro ys sm tbl acc s; rfl
  | cons r rest ih =>
    intro ys sm tbl acc s
    rcases hstep : deployResource env sm sid tbl r s with ⟨res, s'⟩
    rcases res with e2 | d
    · have h1 : deployGo env sid ((r :: rest) ++ ys) sm tbl acc s
          = deployGo env sid (rest ++ ys) sm tbl
            { acc with errors := acc.errors ++ [⟨r.id, r.type, e2.message⟩] } s' := by
        simp only [List.cons_append, deployGo, hstep, List.append_eq]
      have h2 : deployGo env sid (r :: rest) sm tbl acc s
          = deployGo env sid rest sm tbl
            { acc with errors := acc.errors ++ [⟨r.id, r.type, e2.message⟩] } s' := by
        simp only [deployGo, hstep]
      rw [h1, h2]
      exact ih ys sm tbl _ s'
    · have h1 : deployGo env sid ((r :: rest) ++ ys) sm tbl acc s
          = deployGo env sid (rest ++ ys)
            (sm.map fun st => setResource st sid r.id
              (mkResourceState r d.physicalId env.now
                (computePropertiesHash env.digest r.properties)))
            (tblSet tbl r.id d.physicalId)
            { acc with deployed := acc.deployed ++ [d] } s' := by
        simp only [List.cons_append, deployGo, hstep, List.append_eq]
      have h2 : deployGo env sid (r :: rest) sm tbl acc s
          = deployGo env sid rest
            (sm.map fun st => setResource st sid r.id
              (mkResourceState r d.physicalId env.now
                (computePropertiesHash env.digest r.properties)))
            (tblSet tbl r.id d.physicalId)
            { acc with deployed := acc.deployed ++ [d] } s' := by
        simp only [deployGo, hstep]
      rw [h1, h2]
      exact ih ys _ _ _ s'

/-- The deploy loop appends a block of fresh success entries, and the
final substitution table is the incoming table extended by exactly one
`tblSet` per fresh success entry, keyed by that entry's logical id. -/
theorem deployGo_deployed_tbl {σ : Type} (env : SEnv σ) (sid : String) :
    ∀ (rs : List ResourceManifest) (sm : Option Json)
      (tbl : List (String × String)) (acc : DeployResult) (s : MS σ),
      ∃ fresh : List DeployedEntry,
        (deployGo env sid rs sm tbl acc s).1.deployed = acc.deployed ++ fresh
      ∧ (deployGo env sid rs sm tbl acc s).2.2.1
          = List.foldl (fun t d => tblSet t d.id d.physicalId) tbl fresh := by
  intro rs
  induction rs with
  | nil =>
    intro sm tbl acc s
    exact ⟨[], by simp [deployGo], by simp [deployGo]⟩
  | cons r rest ih =>
    intro sm tbl acc s
    rcases hstep : deployResource env sm sid tbl r s with ⟨res, s'⟩
    rcases res with e2 | d
    · have hunf : deployGo env sid (r :: rest) sm tbl acc s
          = deployGo env sid rest sm tbl
            { acc with errors := acc.errors ++ [⟨r.id, r.type, e2.message⟩] } s' := by
        simp only [deployGo, hstep]
      obtain ⟨fresh, hdep, htbl⟩ := ih sm tbl
        { acc with errors := acc.errors ++ [⟨r.id, r.type, e2.message⟩] } s'
      exact ⟨fresh, by rw [hunf]; exact hdep, by rw [hunf]; exact htbl⟩
    · have hunf : deployGo env sid (r :: rest) sm tbl acc s
          = deployGo env sid rest
            (sm.map fun st => setResource st sid r.id
              (mkResourceState r d.physicalId env.now
                (computePropertiesHash env.digest r.properties)))
            (tblSet tbl r.id d.physicalId)
            { acc with deployed := acc.deployed ++ [d] } s' := by
        simp only [deployGo, hstep]
      obtain ⟨hid, -⟩ := deployResource_ok_id env sm sid tbl r s s' d hstep
      obtain ⟨fresh, hdep, htbl⟩ := ih
        (sm.map fun st => setResource st sid r.id
          (mkResourceState r d.physicalId env.now
            (computePropertiesHash env.digest r.properties)))
        (tblSet tbl r.id d.physicalId)
        { acc with deployed := acc.deployed ++ [d] } s'
      refine ⟨d :: fresh, ?_, ?_⟩
      · rw [hunf, hdep]
        simp
      · rw [hunf, htbl]
        simp [hid]

/-- `tblSet` then `tblGet`. -/
theorem tblGet_tblSet (k v i : String) :
    ∀ t : List (String × String),
      tblGet (tblSet t k v) i = if k = i then some v else tblGet t i := by
  intro t
  induction t with
  | nil => by_cases h : k = i <;> simp [tblSet, tblGet, h]
  | cons p ps ih =>
    by_cases hpk : p.1 = k
    · by_cases hki : k = i
      · simp [tblSet, hpk, tblGet, hki]
      · have hpi : ¬ p.1 = i := by rw [hpk]; exact hki
        simp [tblSet, hpk, tblGet, hki, hpi]
    · by_cases hpi : p.1 = i
      · have hki : ¬ k = i := fun h => hpk (by rw [h, hpi])
        have hik : ¬ i = k := fun h => hki h.symm
        simp [tblSet, hpk, tblGet, hpi, hki, hik]
      · simp [tblSet, hpk, tblGet, hpi, ih]

/-- Looking up a table built by folding `tblSet` over success entries
returns the physical id of the most recent entry with the sought
logical id, falling back to the base table. -/
theorem tblGet_foldl (i : String) :
    ∀ (ds : List DeployedEntry) (t : List (String × String)),
      tblGet (List.foldl (fun t d => tblSet t d.id d.physicalId) t ds) i
        = Option.or
            ((ds.reverse.find? fun d => d.id == i).map DeployedEntry.physicalId)
            (tblGet t i) := by
  intro ds
  induction ds with
  | nil => intro t; simp
  | cons d ds ih =>
    intro t
    rw [List.foldl_cons, ih (tblSet t d.id d.physicalId), tblGet_tblSet]
    rw [List.reverse_cons, List.find?_append]
    rcases hF : ds.reverse.find? (fun d => d.id == i) with _ | d0
    · by_cases hdi : d.id = i
      · simp [hF, hdi, Option.or]
      · simp [hF, hdi, Option.or]
    · simp [hF, Option.or]

/-- `resolveDependencies` substitutes the mapped physical id when the
bag's `product` is a nonempty string mapped to a nonempty physical
id. -/
theorem resolveDependencies_subst (tbl : List (String × String)) (props : Json)
    (pid phys : String)
    (hget : Json.jsGet props "product" = some (.str pid))
    (hpid : pid ≠ "") (htbl : tblGet tbl pid = some phys) (hphys : phys ≠ "") :
    resolveDependencies tbl props = Json.jsSet props "product" (.str phys) := by
  unfold resolveDependencies
  rw [hget]
  dsimp only
  rw [if_pos hpid, htbl]
  dsimp only
  rw [if_pos hphys]

/-- C1 (amended): per-entry failure isolation holds, and every error
entry carries the logical id and kind of some manifest entry; for
`deploy` the outcome count is exactly one per manifest entry, but for
`destroy` it is only at most one per entry — an entry whose remote
resource is not found yields neither a destroyed entry nor an error
entry, so the aggregate may have fewer outcomes than entries. -/
theorem claim_C1_per_entry_isolation {σ : Type} (env : SEnv σ) (m : StackManifest)
    (priorTbl : List (String × String)) (sm : Option Json) (s : MS σ) :
    ((deploy env m priorTbl sm s).1.deployed.length
      + (deploy env m priorTbl sm s).1.errors.length = m.resources.length)
  ∧ (∀ e ∈ (deploy env m priorTbl sm s).1.errors,
      ∃ r ∈ m.resources, e.id = r.id ∧ e.type = r.type)
  ∧ ((destroy env m sm s).1.destroyed.length
      + (destroy env m sm s).1.errors.length ≤ m.resources.length)
  ∧ (∀ e ∈ (destroy env m sm s).1.errors,
      ∃ r ∈ m.resources, e.id = r.id ∧ e.type = r.type) := by
  obtain ⟨hc, he⟩ := deployGo_spec env m.stackId m.resources sm [] ⟨m.stackId, [], []⟩ s
  obtain ⟨hc', he'⟩ := destroyGo_spec env m.stackId m.resources.reverse sm ⟨m.stackId, [], []⟩ s
  refine ⟨?_, ?_, ?_, ?_⟩
  · simpa [deploy] using hc
  · intro e hmem
    rcases he e (by simpa [deploy] using hmem) with hin | hex
    · exact absurd hin (List.not_mem_nil e)
    · exact hex
  · have := hc'
    rw [List.length_reverse] at this
    simpa [destroy] using this
  · intro e hmem
    rcases he' e (by simpa [destroy] using hmem) with hin | ⟨r, hr, hid, hty⟩
    · exact absurd hin (List.not_mem_nil e)
    · exact ⟨r, List.mem_reverse.mp hr, hid, hty⟩

/-- C1 counterexample to the claim as stated: destroying a one-entry
stack whose Price does not exist remotely records no outcome at all —
destroyed-list length plus error-list length is 0, not 1. -/
theorem claim_C1_per_entry_isolation_counterexample :
    ¬((destroy envAllMissing mPrice1 none ((), [])).1.destroyed.length
        + (destroy envAllMissing mPrice1 none ((), [])).1.errors.length
      = mPrice1.resources.length) := by decide

/-- C1 witness: on a one-product manifest against a remote whose search
throws, the outcome count is exact and the error entry matches the
manifest entry's id and kind. -/
theorem claim_C1_per_entry_isolation_witness :
    ((deploy envBoom mProd1 [] none ((), [])).1.deployed.length
      + (deploy envBoom mProd1 [] none ((), [])).1.errors.length
      = mProd1.resources.length)
  ∧ (∃ r ∈ mProd1.resources,
      (⟨"MyProduct", "Stripe::Product", "API Error"⟩ : ErrorEntry).id = r.id
      ∧ (⟨"MyProduct", "Stripe::Product", "API Error"⟩ : ErrorEntry).type = r.type) := by
  refine ⟨(claim_C1_per_entry_isolation envBoom mProd1 [] none ((), [])).1, ?_⟩
  exact (claim_C1_per_entry_isolation envBoom mProd1 [] none ((), [])).2.1
    ⟨"MyProduct", "Stripe::Product", "API Error"⟩ (by decide)

/-- C2: for a Price entry whose existing remote price differs from the
desired bag, deploy issues the deactivate call (`active:false` update)
on the old remote id first, then the create call for a new object with
the desired bag, and reports status `created` with the new object's id
as the physical id; the deploy loop reaches this path whenever the
entry's kind is `Stripe::Price`. -/
theorem claim_C2_price_replace {σ : Type} (env : SEnv σ) (sm : Option Json)
    (stackId : String) (tbl : List (String × String)) (r : ResourceManifest)
    (s : MS σ) (σ₁ σ₂ σ₃ : σ) (tr₁ : List SCall) (existing upd created : SObj)
    (hty : r.type = "Stripe::Price")
    (hfind : findExistingPrice env sm stackId r.id s = (.ok (some existing), (σ₁, tr₁)))
    (hcmp : comparePriceProperties existing (resolveDependencies tbl r.properties) = false)
    (hupd : env.pricesUpdate σ₁ existing.id activeFalse = (.ok upd, σ₂))
    (hcre : env.pricesCreate σ₂
        (priceParamsWithMeta r (resolveDependencies tbl r.properties)) = (.ok created, σ₃)) :
    (deployPrice env sm stackId tbl r s
      = (.ok ⟨r.id, r.type, created.id, "created"⟩,
         (σ₃, tr₁ ++ [.pricesUpdate existing.id activeFalse,
                      .pricesCreate (priceParamsWithMeta r
                        (resolveDependencies tbl r.properties))])))
  ∧ deployResource env sm stackId tbl r s = deployPrice env sm stackId tbl r s := by
  constructor
  · unfold deployPrice deployPriceWith
    rw [hfind]
    dsimp only
    rw [hcmp]
    simp only [Bool.false_eq_true, if_false]
    simp only [callOp]
    simp only [hupd]
    simp only [hcre]
    simp [List.append_assoc]
  · unfold deployResource
    rw [if_neg (by rw [hty]; decide), if_pos hty]

/-- C2 witness: existing `unit_amount:500` versus desired
`unit_amount:999` — deactivate `price_1`, create `price_new`, status
`created`. -/
theorem claim_C2_price_replace_witness :
    (deployPrice envFound none "TestStack" [("MyProduct", "prod_new")] rPrice ((), [])
      = (.ok ⟨"MyPrice", "Stripe::Price", "price_new", "created"⟩,
         ((), [.pricesSearch (searchQueryFor "MyPrice") 1,
               .pricesUpdate "price_1" activeFalse,
               .pricesCreate (priceParamsWithMeta rPrice
                 (resolveDependencies [("MyProduct", "prod_new")] rPrice.properties))])))
  ∧ deployResource envFound none "TestStack" [("MyProduct", "prod_new")] rPrice ((), [])
      = deployPrice envFound none "TestStack" [("MyProduct", "prod_new")] rPrice ((), []) :=
  claim_C2_price_replace envFound none "TestStack" [("MyProduct", "prod_new")] rPrice
    ((), []) () () () [.pricesSearch (searchQueryFor "MyPrice") 1] priceFoundObj
    ⟨"price_1", activeFalse⟩
    ⟨"price_new", priceParamsWithMeta rPrice
      (resolveDependencies [("MyProduct", "prod_new")] rPrice.properties)⟩
    rfl rfl rfl rfl rfl

/-- C8: destroy processes the manifest entries in exactly the reverse
of declaration order while deploy processes them in declaration order:
for every manifest the runs are the loops over `m.resources.reverse`
and over `m.resources` respectively, and on the concrete
`[Product, Price]` manifest the teardown outcomes and the recorded
remote calls put the Price strictly before the Product, while deploy
reports the Product before the Price. -/
theorem claim_C8_ordering :
    (∀ (σ : Type) (env : SEnv σ) (m : StackManifest) (sm : Option Json) (s : MS σ),
      destroy env m sm s
        = destroyGo env m.stackId m.resources.reverse sm ⟨m.stackId, [], []⟩ s)
  ∧ (∀ (σ : Type) (env : SEnv σ) (m : StackManifest)
      (priorTbl : List (String × String)) (sm : Option Json) (s : MS σ),
      deploy env m priorTbl sm s
        = deployGo env m.stackId m.resources sm [] ⟨m.stackId, [], []⟩ s)
  ∧ ((destroy envFound mProdPrice none ((), [])).1.destroyed
      = [⟨"MyPrice", "Stripe::Price", "deactivated"⟩,
         ⟨"MyProduct", "Stripe::Product", "deleted"⟩])
  ∧ ((destroy envFound mProdPrice none ((), [])).2.2.2
      = [.pricesSearch (searchQueryFor "MyPrice") 1, .pricesUpdate "price_1" activeFalse,
         .productsSearch (searchQueryFor "MyProduct") 1, .productsDel "prod_1"])
  ∧ ((deploy envAllMissing mProdPrice [] none ((), [])).1.deployed.map DeployedEntry.id
      = ["MyProduct", "MyPrice"]) :=
  ⟨fun _ _ _ _ _ => rfl, fun _ _ _ _ _ _ => rfl, rfl, rfl, rfl⟩

/-- C3: the substitution table is cleared at the start of every deploy
run (the prior table is ignored); after the run's prefix the table is
exactly one entry per successfully deployed prefix entry keyed by
logical id, so a lookup returns the physical id produced when the most
recent matching earlier entry was deployed; and a Price entry whose
bag's `product` is such a logical id is processed with the bag's
`product` replaced by that physical id, not the logical id string. -/
theorem claim_C3_dependency_resolution {σ : Type} (env : SEnv σ) (m : StackManifest)
    (pfx rest : List ResourceManifest) (r : ResourceManifest)
    (sm : Option Json) (s : MS σ) (pid phys : String)
    (hsplit : m.resources = pfx ++ r :: rest)
    (hty : r.type = "Stripe::Price")
    (hget : Json.jsGet r.properties "product" = some (.str pid))
    (hpid : pid ≠ "")
    (hfound : tblGet (deployGo env m.stackId pfx sm [] ⟨m.stackId, [], []⟩ s).2.2.1 pid = some phys)
    (hphys : phys ≠ "") :
    (∀ t t', deploy env m t sm s = deploy env m t' sm s)
  ∧ deploy env m [] sm s
      = deployGo env m.stackId (r :: rest) (deployGo env m.stackId pfx sm [] ⟨m.stackId, [], []⟩ s).2.1 (deployGo env m.stackId pfx sm [] ⟨m.stackId, [], []⟩ s).2.2.1 (deployGo env m.stackId pfx sm [] ⟨m.stackId, [], []⟩ s).1 (deployGo env m.stackId pfx sm [] ⟨m.stackId, [], []⟩ s).2.2.2
  ∧ (deployGo env m.stackId pfx sm [] ⟨m.stackId, [], []⟩ s).2.2.1
      = List.foldl (fun t d => tblSet t d.id d.physicalId) [] (deployGo env m.stackId pfx sm [] ⟨m.stackId, [], []⟩ s).1.deployed
  ∧ (((deployGo env m.stackId pfx sm [] ⟨m.stackId, [], []⟩ s).1.deployed.reverse.find? fun d => d.id == pid).map DeployedEntry.physicalId)
      = some phys
  ∧ deployResource env (deployGo env m.stackId pfx sm [] ⟨m.stackId, [], []⟩ s).2.1 m.stackId (deployGo env m.stackId pfx sm [] ⟨m.stackId, [], []⟩ s).2.2.1 r
      = deployPriceWith env (deployGo env m.stackId pfx sm [] ⟨m.stackId, [], []⟩ s).2.1 m.stackId r
          (Json.jsSet r.properties "product" (.str phys)) := by
  obtain ⟨fresh, hdep, htbl⟩ :=
    deployGo_deployed_tbl env m.stackId pfx sm [] ⟨m.stackId, [], []⟩ s
  have h3 : (deployGo env m.stackId pfx sm [] ⟨m.stackId, [], []⟩ s).2.2.1
      = List.foldl (fun t d => tblSet t d.id d.physicalId) [] (deployGo env m.stackId pfx sm [] ⟨m.stackId, [], []⟩ s).1.deployed := by
    rw [htbl, hdep]
    simp
  refine ⟨fun t t' => rfl, ?_, h3, ?_, ?_⟩
  · show deployGo env m.stackId m.resources sm [] ⟨m.stackId, [], []⟩ s = _
    rw [hsplit]
    exact deployGo_append env m.stackId pfx (r :: rest) sm [] ⟨m.stackId, [], []⟩ s
  · have h4 := hfound
    rw [h3, tblGet_foldl] at h4
    simpa [tblGet, Option.or_none] using h4
  · funext s0
    show deployResource env (deployGo env m.stackId pfx sm [] ⟨m.stackId, [], []⟩ s).2.1 m.stackId (deployGo env m.stackId pfx sm [] ⟨m.stackId, [], []⟩ s).2.2.1 r s0 = _
    unfold deployResource
    rw [if_neg (by rw [hty]; decide), if_pos hty]
    show deployPriceWith env (deployGo env m.stackId pfx sm [] ⟨m.stackId, [], []⟩ s).2.1 m.stackId r
        (resolveDependencies (deployGo env m.stackId pfx sm [] ⟨m.stackId, [], []⟩ s).2.2.1 r.properties) s0 = _
    rw [resolveDependencies_subst _ _ pid phys hget hpid hfound hphys]

/-- C3 witness: `MyProduct` deployed first with remote id `prod_new`;
the following Price entry is processed with `product` resolved to
`prod_new`. -/
theorem claim_C3_dependency_resolution_witness :
    deploy envAllMissing mProdPrice [] none ((), [])
      = deployGo envAllMissing mProdPrice.stackId (rPrice :: []) (deployGo envAllMissing mProdPrice.stackId [rProduct] none [] ⟨mProdPrice.stackId, [], []⟩ ((), [])).2.1 (deployGo envAllMissing mProdPrice.stackId [rProduct] none [] ⟨mProdPrice.stackId, [], []⟩ ((), [])).2.2.1 (deployGo envAllMissing mProdPrice.stackId [rProduct] none [] ⟨mProdPrice.stackId, [], []⟩ ((), [])).1 (deployGo envAllMissing mProdPrice.stackId [rProduct] none [] ⟨mProdPrice.stackId, [], []⟩ ((), [])).2.2.2
  ∧ (deployGo envAllMissing mProdPrice.stackId [rProduct] none [] ⟨mProdPrice.stackId, [], []⟩ ((), [])).2.2.1
      = List.foldl (fun t d => tblSet t d.id d.physicalId) [] (deployGo envAllMissing mProdPrice.stackId [rProduct] none [] ⟨mProdPrice.stackId, [], []⟩ ((), [])).1.deployed
  ∧ (((deployGo envAllMissing mProdPrice.stackId [rProduct] none [] ⟨mProdPrice.stackId, [], []⟩ ((), [])).1.deployed.reverse.find? fun d => d.id == "MyProduct").map DeployedEntry.physicalId)
      = some "prod_new"
  ∧ deployResource envAllMissing (deployGo envAllMissing mProdPrice.stackId [rProduct] none [] ⟨mProdPrice.stackId, [], []⟩ ((), [])).2.1 mProdPrice.stackId (deployGo envAllMissing mProdPrice.stackId [rProduct] none [] ⟨mProdPrice.stackId, [], []⟩ ((), [])).2.2.1 rPrice
      = deployPriceWith envAllMissing (deployGo envAllMissing mProdPrice.stackId [rProduct] none [] ⟨mProdPrice.stackId, [], []⟩ ((), [])).2.1 mProdPrice.stackId rPrice
          (Json.jsSet rPrice.properties "product" (.str "prod_new")) :=
  (claim_C3_dependency_resolution envAllMissing mProdPrice [rProduct] [] rPrice
    none ((), []) "MyProduct" "prod_new" rfl rfl rfl (by decide) rfl (by decide)).2

theorem lookupField_setField_ne (k : String) (v : Json) (k' : String) (hne : ¬ k = k') :
    ∀ fs, Json.lookupField (Json.setField fs k v) k' = Json.lookupField fs k' := by
  intro fs
  induction fs with
  | nil => simp [Json.setField, Json.lookupField, hne]
  | cons p ps ih =>
    rcases p with ⟨k0, v0⟩
    by_cases h0 : k0 = k
    · have hk0 : ¬ k0 = k' := by rw [h0]; exact hne
      simp [Json.setField, Json.lookupField, h0, hne, hk0]
    · have hne' : ¬ k' = k := fun h => hne h.symm
      by_cases hk : k0 = k' <;> simp [Json.setField, Json.lookupField, h0, hk, ih, hne']

/-- Setting one key leaves every other key's read unchanged. -/
theorem jsGet_jsSet_ne (j : Json) (k : String) (v : Json) (k' : String)
    (hne : ¬ k = k') : Json.jsGet (Json.jsSet j k v) k' = Json.jsGet j k' := by
  cases j with
  | obj fs => exact lookupField_setField_ne k v k' hne fs
  | null => rfl
  | bool b => rfl
  | num n => rfl
  | str s => rfl
  | arr xs => rfl

/-- `comparePriceProperties` never reads the existing side's
`metadata`. -/
theorem comparePriceProperties_meta_left (e : SObj) (d v : Json) :
    comparePriceProperties ⟨e.id, Json.jsSet e.fields "metadata" v⟩ d
      = comparePriceProperties e d := by
  simp [comparePriceProperties, jsGet_jsSet_ne]

/-- `comparePriceProperties` never reads the desired side's
`metadata`. -/
theorem comparePriceProperties_meta_right (e : SObj) (d v : Json) :
    comparePriceProperties e (Json.jsSet d "metadata" v)
      = comparePriceProperties e d := by
  simp [comparePriceProperties, jsGet_jsSet_ne]

theorem callOp_eq {σ α : Type} (op : σ → Except JsErr α × σ) (c : SCall) (s : MS σ) :
    callOp op c s = ((op s.1).1, (op s.1).2, s.2 ++ [c]) := by
  unfold callOp
  rcases h : op s.1 with ⟨r, σ'⟩
  rfl

/-- The search fallback records exactly one search call. -/
theorem priceSearchPath_calls {σ : Type} (env : SEnv σ) (lid : String)
    (s : MS σ) (res : Except JsErr (Option SObj)) (s' : MS σ)
    (h : priceSearchPath env lid s = (res, s')) :
    s'.2 = s.2 ++ [SCall.pricesSearch (searchQueryFor lid) 1] := by
  unfold priceSearchPath at h
  rw [callOp_eq] at h
  split at h
  · rename_i data s₁ heq
    injection heq with he1 he2
    subst he2
    injection h with h1 h2
    subst h2
    rfl
  · rename_i e s₁ heq
    injection heq with he1 he2
    subst he2
    split at h
    · injection h with h1 h2; subst h2; rfl
    · injection h with h1 h2; subst h2; rfl

/-- The state fast path records at most one retrieve call. -/
theorem priceFastPath_calls {σ : Type} (env : SEnv σ) (sm : Option Json)
    (stackId lid : String) (s : MS σ) (res : Except JsErr (Option SObj)) (s' : MS σ)
    (h : priceFastPath env sm stackId lid s = (res, s')) :
    s'.2 = s.2 ∨ ∃ j, s'.2 = s.2 ++ [SCall.pricesRetrieve j] := by
  unfold priceFastPath at h
  split at h
  · injection h with h1 h2; subst h2; exact Or.inl rfl
  · split at h
    · injection h with h1 h2; subst h2; exact Or.inl rfl
    · split at h
      · injection h with h1 h2; subst h2; exact Or.inl rfl
      · split at h
        · split at h
          · rw [callOp_eq] at h
            split at h
            · rename_i p s₁ heq
              injection heq with he1 he2
              subst he2
              injection h with h1 h2
              subst h2
              exact Or.inr ⟨_, rfl⟩
            · rename_i e s₁ heq
              injection heq with he1 he2
              subst he2
              split at h
              · injection h with h1 h2; subst h2; exact Or.inr ⟨_, rfl⟩
              · injection h with h1 h2; subst h2; exact Or.inr ⟨_, rfl⟩
          · injection h with h1 h2; subst h2; exact Or.inl rfl
        · injection h with h1 h2; subst h2; exact Or.inl rfl

/-- Every call recorded by `findExistingPrice` is a price retrieve or
the tag search — never an update or a create. -/
theorem findExistingPrice_calls {σ : Type} (env : SEnv σ) (sm : Option Json)
    (stackId lid : String) (s : MS σ) (res : Except JsErr (Option SObj)) (s' : MS σ)
    (h : findExistingPrice env sm stackId lid s = (res, s')) :
    ∀ c ∈ s'.2, c ∈ s.2 ∨ (∃ j, c = SCall.pricesRetrieve j)
      ∨ c = SCall.pricesSearch (searchQueryFor lid) 1 := by
  unfold findExistingPrice at h
  split at h
  · rename_i p s₁ heq
    injection h with h1 h2
    subst h2
    intro c hc
    rcases priceFastPath_calls env sm stackId lid s _ _ heq with hsame | ⟨j, hj⟩
    · exact Or.inl (hsame ▸ hc)
    · rw [hj] at hc
      rcases List.mem_append.mp hc with hin | hin
      · exact Or.inl hin
      · simp at hin
        exact Or.inr (Or.inl ⟨j, hin⟩)
  · rename_i s₁ heq
    intro c hc
    have hs' := priceSearchPath_calls env lid s₁ res s' h
    rw [hs'] at hc
    rcases List.mem_append.mp hc with hin | hin
    · rcases priceFastPath_calls env sm stackId lid s _ _ heq with hsame | ⟨j, hj⟩
      · exact Or.inl (hsame ▸ hin)
      · rw [hj] at hin
        rcases List.mem_append.mp hin with hin2 | hin2
        · exact Or.inl hin2
        · simp at hin2
          exact Or.inr (Or.inl ⟨j, hin2⟩)
    · simp at hin
      exact Or.inr (Or.inr hin)
  · rename_i e s₁ heq
    injection h with h1 h2
    subst h2
    intro c hc
    rcases priceFastPath_calls env sm stackId lid s _ _ heq with hsame | ⟨j, hj⟩
    · exact Or.inl (hsame ▸ hc)
    · rw [hj] at hc
      rcases List.mem_append.mp hc with hin | hin
      · exact Or.inl hin
      · simp at hin
        exact Or.inr (Or.inl ⟨j, hin⟩)

/-- C10: when an existing remote price is found and agrees with the
desired bag on every compared field, the outcome is `unchanged` with
the existing remote id, every call issued during the entry is a find
call (retrieve or tag search) — no deactivate (`pricesUpdate`) and no
create is issued — and the comparison is insensitive to the `metadata`
field on either side, so a metadata-only difference never triggers
replacement. -/
theorem claim_C10_price_unchanged {σ : Type} (env : SEnv σ) (sm : Option Json)
    (stackId : String) (tbl : List (String × String)) (r : ResourceManifest)
    (σ₀ σ₁ : σ) (tr₁ : List SCall) (existing : SObj)
    (hfind : findExistingPrice env sm stackId r.id (σ₀, [])
      = (.ok (some existing), (σ₁, tr₁)))
    (hcmp : comparePriceProperties existing (resolveDependencies tbl r.properties) = true) :
    (deployPrice env sm stackId tbl r (σ₀, [])
      = (.ok ⟨r.id, r.type, existing.id, "unchanged"⟩, (σ₁, tr₁)))
  ∧ (∀ c ∈ tr₁, (∀ i p, c ≠ SCall.pricesUpdate i p) ∧ ∀ p, c ≠ SCall.pricesCreate p)
  ∧ (∀ (e : SObj) (d v : Json),
      comparePriceProperties ⟨e.id, Json.jsSet e.fields "metadata" v⟩ d
        = comparePriceProperties e d)
  ∧ (∀ (e : SObj) (d v : Json),
      comparePriceProperties e (Json.jsSet d "metadata" v)
        = comparePriceProperties e d) := by
  refine ⟨?_, ?_, comparePriceProperties_meta_left, comparePriceProperties_meta_right⟩
  · unfold deployPrice deployPriceWith
    rw [hfind]
    dsimp only
    rw [hcmp]
    simp
  · intro c hc
    rcases findExistingPrice_calls env sm stackId r.id (σ₀, []) _ _ hfind c hc
      with hin | ⟨j, hj⟩ | hs
    · exact absurd hin (List.not_mem_nil c)
    · subst hj
      exact ⟨fun i p hcon => (nomatch hcon), fun p hcon => nomatch hcon⟩
    · subst hs
      exact ⟨fun i p hcon => (nomatch hcon), fun p hcon => nomatch hcon⟩

/-- C10 witness: `priceFoundObj` agrees with the desired bag of
`rPriceSame` — outcome `unchanged` with id `price_1`, only the search
call recorded; and a metadata-only difference does not change the
comparison. -/
theorem claim_C10_price_unchanged_witness :
    (deployPrice envFound none "TestStack" [] rPriceSame ((), [])
      = (.ok ⟨"MyPrice", "Stripe::Price", "price_1", "unchanged"⟩,
         ((), [.pricesSearch (searchQueryFor "MyPrice") 1])))
  ∧ comparePriceProperties
      ⟨priceFoundObj.id, Json.jsSet priceFoundObj.fields "metadata" (.str "x")⟩
      rPriceSame.properties
      = comparePriceProperties priceFoundObj rPriceSame.properties :=
  ⟨(claim_C10_price_unchanged envFound none "TestStack" [] rPriceSame () ()
      [.pricesSearch (searchQueryFor "MyPrice") 1] priceFoundObj rfl rfl).1,
   (claim_C10_price_unchanged envFound none "TestStack" [] rPriceSame () ()
      [.pricesSearch (searchQueryFor "MyPrice") 1] priceFoundObj rfl rfl).2.2.1
     priceFoundObj rPriceSame.properties (.str "x")⟩
